import Mathlib

/-!
Verification model for the generic trigger-backed undo/redo CRUD engine of
`src/electron/database/DatabaseActions.ts` (OpenMarch).

The SQLite store is shallowly embedded: one application table (a list of rows
with store-assigned integer row ids plus a declared column set), the undo
history log, the undo-group counter, and a redo stack.  Store faults are
injected through explicit schedules (`failWrites` by global write index and
`failSelects` by row id); a fault raised by a primitive is an `Except.error`,
mirroring a thrown JS exception, and the `catch` blocks of the source become
`match` arms on that `Except`.  Wall-clock reads (`new Date().toISOString()`)
consume successive entries of `clockStream`.  The helper module
`database.history` is not part of the sources under study; its operations
(`getCurrentUndoGroup`, `incrementUndoGroup`, `performUndo`,
`clearMostRecentRedo` and the capture triggers) are modelled from the spec, as
noted on each definition.  History capture is modelled at statement
granularity (one record per row write) rather than one record per column; no
claim depends on the distinction.  Lookups always use the integer row id: the
`idColumn` argument of the source only selects the column named in SQL text and
in error messages, and the model keeps it for the messages.
-/

set_option autoImplicit false

namespace OpenMarch

/-- A cell value of the store.  ISO timestamp strings are represented by the
decimal rendering of the clock reading that produced them. -/
abbrev Val := String

/-- A JS object / SQL row payload: an association list from column name to
value (JS objects have no duplicate keys; well-formed inputs are nodup). -/
abbrev Obj := List (String × Val)

/-- A stored row: the store-assigned rowid together with its column values. -/
structure Row where
  rowid : Nat
  fields : Obj
deriving Repr, DecidableEq

/-- What an undo trigger recorded for one row-level write, with enough
information to reverse that exact change (spec section 3, History Record). -/
inductive ChangeKind where
  /-- an INSERT of the row with this rowid (reversal: delete it) -/
  | ins (rowid : Nat)
  /-- an UPDATE of this rowid, remembering the prior field values -/
  | upd (rowid : Nat) (prior : Obj)
  /-- a DELETE, remembering the full removed row (reversal: re-insert) -/
  | del (row : Row)
deriving Repr, DecidableEq

/-- One record of the undo history log, tagged with its undo group.
Chronological order is the list order of `DB.history`. -/
structure HistRec where
  group : Nat
  change : ChangeKind
deriving Repr, DecidableEq

/-- A thrown JS error: message and stack. -/
structure Fault where
  message : String
  stack : String
deriving Repr, DecidableEq

/-- The store state visible to the engine, plus the fault/clock schedules that
drive the nondeterminism of the environment. -/
structure DB where
  /-- the rows of the one application table under study -/
  rows : List Row
  /-- the declared column names of that table (PRAGMA table_info) -/
  columns : List String
  /-- next store-assigned rowid (strictly increasing, never reused) -/
  nextRowId : Nat
  /-- the undo history log, oldest first -/
  history : List HistRec
  /-- redo slots produced by undo replay, newest first -/
  redoStack : List (List HistRec)
  /-- the process-wide undo-group counter -/
  currentGroup : Nat
  /-- wall-clock readings, consumed one per `new Date()` call -/
  clockStream : List Nat
  /-- index of the next clock reading -/
  clockIdx : Nat
  /-- global index of the next write statement -/
  writeIdx : Nat
  /-- write statement indices at which the store throws -/
  failWrites : List Nat
  /-- row ids whose single-row SELECT throws -/
  failSelects : List Nat
  /-- whether the full-table SELECT throws -/
  failSelectAll : Bool
deriving Repr, DecidableEq

/-- `error.message || dflt`: JS falls back when the message is absent or
the empty string. -/
def msgOr (m : String) (dflt : String) : String :=
  if m = "" then dflt else m

/-- `x || dflt` on an optional string, as JS truthiness. -/
def optMsgOr (m : Option String) (dflt : String) : String :=
  match m with
  | none => dflt
  | some s => msgOr s dflt

/-- JS truthiness of a SQL scalar that may be NULL: `null` and `0` are falsy. -/
def jsTruthy : Option Nat → Bool
  | none => false
  | some 0 => false
  | some (_ + 1) => true

/-- Maximum of a list of naturals, `none` on the empty list
(SQL `MAX` returns NULL over no rows). -/
def listMax? : List Nat → Option Nat
  | [] => none
  | x :: xs =>
    match listMax? xs with
    | none => some x
    | some m => some (max x m)

/-- Read one field of a row payload (first occurrence, as a JS property). -/
def getField (fields : Obj) (key : String) : Option Val :=
  match fields.find? (fun p => p.1 = key) with
  | none => none
  | some p => some p.2

/-- JS property assignment `obj[key] = v`: overwrite in place if the key
exists, append otherwise. -/
def setField (fields : Obj) (key : String) (v : Val) : Obj :=
  if fields.any (fun p => p.1 = key) then
    fields.map (fun p => if p.1 = key then (key, v) else p)
  else
    fields ++ [(key, v)]

/-- First-occurrence deduplication, as iteration over a JS `Set` built by
insertion. -/
def setDedup {α : Type} [DecidableEq α] : List α → List α
  | [] => []
  | x :: xs => x :: (setDedup xs).filter (fun y => y ≠ x)

/-- `new Date().toISOString()`: consume the next clock reading. -/
def readClock (db : DB) : Val × DB :=
  (toString (db.clockStream.getD db.clockIdx 0), { db with clockIdx := db.clockIdx + 1 })

/-- Find the stored row with the given rowid. -/
def findRow (rows : List Row) (id : Nat) : Option Row :=
  rows.find? (fun r => r.rowid = id)

/-! ### Store primitives with undo-trigger capture

Each mutating statement consumes one global write index; if that index is in
the fault schedule the statement throws.  A successful write fires the
change-capture trigger: it appends one history record tagged with the group
current at the time of the write (spec section 4.4, modelled from the spec:
`createUndoTriggers` is not among the sources under study). -/

/-- `INSERT INTO t ... ; lastInsertRowid` with trigger capture. -/
def sqlInsert (db : DB) (fields : Obj) : Except Fault (Nat × DB) :=
  if db.writeIdx ∈ db.failWrites then
    .error ⟨"store fault on write " ++ toString db.writeIdx, "store stack"⟩
  else
    let id := db.nextRowId
    .ok (id,
      { db with
        rows := db.rows ++ [⟨id, fields⟩]
        nextRowId := id + 1
        writeIdx := db.writeIdx + 1
        history := db.history ++ [⟨db.currentGroup, .ins id⟩] })

/-- `UPDATE t SET ... WHERE rowid = ?` with trigger capture.  Updating an
absent row succeeds and changes (and records) nothing. -/
def sqlUpdate (db : DB) (id : Nat) (updates : Obj) : Except Fault DB :=
  if db.writeIdx ∈ db.failWrites then
    .error ⟨"store fault on write " ++ toString db.writeIdx, "store stack"⟩
  else
    match findRow db.rows id with
    | none => .ok { db with writeIdx := db.writeIdx + 1 }
    | some r =>
      .ok { db with
        rows := db.rows.map (fun q =>
          if q.rowid = id then
            ⟨q.rowid, updates.foldl (fun fs p => setField fs p.1 p.2) q.fields⟩
          else q)
        writeIdx := db.writeIdx + 1
        history := db.history ++ [⟨db.currentGroup, .upd id r.fields⟩] }

/-- `DELETE FROM t WHERE rowid = ?` with trigger capture. -/
def sqlDelete (db : DB) (id : Nat) : Except Fault DB :=
  if db.writeIdx ∈ db.failWrites then
    .error ⟨"store fault on write " ++ toString db.writeIdx, "store stack"⟩
  else
    match findRow db.rows id with
    | none => .ok { db with writeIdx := db.writeIdx + 1 }
    | some r =>
      .ok { db with
        rows := db.rows.filter (fun q => q.rowid ≠ id)
        writeIdx := db.writeIdx + 1
        history := db.history ++ [⟨db.currentGroup, .del r⟩] }

/-- `SELECT * FROM t WHERE idColumn = ?` — read-only, may throw per schedule. -/
def sqlSelect (db : DB) (id : Nat) : Except Fault (Option Row) :=
  if id ∈ db.failSelects then
    .error ⟨"store fault on select " ++ toString id, "store stack"⟩
  else
    .ok (findRow db.rows id)

/-! ### database.history operations (modelled from the spec) -/

/-- Modelled from the spec: `History.getCurrentUndoGroup` of the missing
`database.history` module — "current group" is the counter owned by the Undo
Group Manager (spec section 4.3). -/
def getCurrentUndoGroup (db : DB) : Nat :=
  db.currentGroup

/-- Modelled from the spec: `History.incrementUndoGroup` of the missing
`database.history` module — every call advances the group counter and returns
the new value, strictly greater than the previous one (spec section 4.3). -/
def incrementUndoGroup (db : DB) : Nat × DB :=
  (db.currentGroup + 1, { db with currentGroup := db.currentGroup + 1 })

/-- Reverse one recorded change against the table (spec glossary,
Compensation). -/
def applyReversal (rows : List Row) : HistRec → List Row
  | ⟨_, .ins id⟩ => rows.filter (fun r => r.rowid ≠ id)
  | ⟨_, .upd id prior⟩ => rows.map (fun r => if r.rowid = id then ⟨r.rowid, prior⟩ else r)
  | ⟨_, .del row⟩ => rows ++ [row]

/-- Modelled from the spec: `History.performUndo` of the missing
`database.history` module — replay the history records of the maximum group in
reverse chronological order, move them to a redo slot (spec sections 2 and
4.5 step 6). -/
def performUndo (db : DB) : DB :=
  match listMax? (db.history.map (fun r => r.group)) with
  | none => db
  | some g =>
    let recs := db.history.filter (fun r => r.group = g)
    { db with
      rows := (recs.reverse).foldl applyReversal db.rows
      history := db.history.filter (fun r => r.group ≠ g)
      redoStack := recs :: db.redoStack }

/-- Modelled from the spec: `History.clearMostRecentRedo` of the missing
`database.history` module — discard the pending redo slot created by the
compensating undo (spec section 4.5 step 6). -/
def clearMostRecentRedo (db : DB) : DB :=
  match db.redoStack with
  | [] => db
  | _ :: rest => { db with redoStack := rest }

/-- `decrementLastUndoGroup` (DatabaseActions.ts lines 25-47): find the
maximum history group and the maximum group strictly below it; when the latter
is truthy (non-NULL and non-zero in JS), re-tag every record of the maximum
group to it. -/
def decrementLastUndoGroup (db : DB) : DB :=
  let maxGroup : Option Nat := listMax? (db.history.map (fun r => r.group))
  let previousGroup : Option Nat :=
    match maxGroup with
    | none => none
    | some m => listMax? ((db.history.map (fun r => r.group)).filter (fun g => g < m))
  if jsTruthy previousGroup then
    { db with
      history := db.history.map (fun r =>
        if some r.group = maxGroup then ⟨previousGroup.getD r.group, r.change⟩ else r) }
  else db

/-! ### DatabaseResponse and the row accessors (from the source) -/

/-- The `error` payload of a `DatabaseResponse`. -/
structure ErrInfo where
  message : String
  stack : Option String
deriving Repr, DecidableEq

/-- `DatabaseResponse<T>` (DatabaseActions.ts lines 8-15). -/
structure DatabaseResponse (α : Type) where
  success : Bool
  error : Option ErrInfo
  data : α
deriving Repr, DecidableEq

/-- The NotFound message of `getItem` (line 80). -/
def getItemNotFoundMsg (idColumn : String) (id : Nat) (tableName : String) : String :=
  "No item with \"" ++ idColumn ++ "\"=" ++ toString id ++ " in table \"" ++ tableName ++ "\""

/-- `getItem` (DatabaseActions.ts lines 58-102): parameterised single-row
lookup; zero matches give `success=false` with a NotFound message and
`data = result` (undefined); a store fault is caught and reported with its
message and stack. -/
def getItem (db : DB) (tableName : String) (idColumn : String) (id : Nat) :
    DatabaseResponse (Option Row) :=
  match sqlSelect db id with
  | .error e =>
    { success := false
      data := none
      error := some ⟨msgOr e.message ("Error getting item \"" ++ idColumn ++ "\"=" ++ toString id),
                     some (msgOr e.stack "Unable to get error stack")⟩ }
  | .ok none =>
    { success := false
      data := none
      error := some ⟨getItemNotFoundMsg idColumn id tableName, none⟩ }
  | .ok (some r) =>
    { success := true, error := none, data := some r }

/-- `getItem` as invoked with a possibly-undefined id (updateItems
pre-validation maps items to `item.id`, which is `undefined` for an item
lacking one; binding `undefined` throws inside `stmt.get`, and `getItem`'s
catch turns that into a failure response with `data` undefined). -/
def getItemOpt (db : DB) (tableName : String) (id : Option Nat) :
    DatabaseResponse (Option Row) :=
  match id with
  | none =>
    { success := false
      data := none
      error := some ⟨"Invalid value: undefined cannot be bound", some "bind stack"⟩ }
  | some i => getItem db tableName "rowid" i

/-- `getAllItems` (DatabaseActions.ts lines 129-167): full-table fetch;
`stmt.all()` always yields an array (possibly empty, still truthy in JS), so
the only failure path is a caught store fault, reported with empty data. -/
def getAllItems (db : DB) (tableName : String) : DatabaseResponse (List Row) :=
  if db.failSelectAll then
    { success := false
      data := []
      error := some ⟨msgOr "store fault on select all" ("Error getting items from " ++ tableName),
                     some (msgOr "store stack" "Unable to get error stack")⟩ }
  else
    { success := true, error := none, data := db.rows }

/-! ### The Row Mutation Engine (from the source)

Each operation returns its `DatabaseResponse`, the final store state, and an
`OpTrace` recording, for each helper of the source, whether this call invoked
it.  The trace is ghost output: each flag is set exactly at the source line
that calls the corresponding helper. -/

/-- Which helper calls an operation performed on this invocation. -/
structure OpTrace where
  /-- the pre-validation early return was taken (update/delete only) -/
  preValFailed : Bool
  /-- `actionWasPerformed` at exit -/
  wrote : Bool
  /-- `decrementLastUndoGroup` (merge into previous group) was invoked -/
  merged : Bool
  /-- `History.performUndo` + `clearMostRecentRedo` (compensation) was invoked -/
  compensated : Bool
  /-- the `finally` block invoked `History.incrementUndoGroup` -/
  finalized : Bool
  /-- the warn-and-continue skip branch of `updateItems` was taken -/
  skipped : Bool
deriving Repr, DecidableEq

/-- Outcome of a try-block phase: the state at (normal or abrupt) exit, the
value or the thrown fault, and `actionWasPerformed`. -/
structure TryRes (α : Type) where
  db : DB
  res : Except Fault α
  awp : Bool
deriving Repr

/-- The failure `DatabaseResponse` built by the catch blocks. -/
def mutationFailResp (dfltMsg : String) (f : Fault) : DatabaseResponse (List Row) :=
  { success := false
    data := []
    error := some ⟨msgOr f.message dfltMsg, some (msgOr f.stack "Unable to get error stack")⟩ }

/-- Per-item preparation of `createItems` (lines 217-229): shallow-copy, strip
any caller-supplied `id`, then set `created_at`/`updated_at` when the table
declares those columns. -/
def prepareCreateItem (cols : List String) (createdAt : Val) (oldItem : Obj) : Obj :=
  let item := oldItem
  let itemToInsert :=
    if item.any (fun p => p.1 = "id") then item.filter (fun p => p.1 ≠ "id") else item
  let a := if "created_at" ∈ cols then setField itemToInsert "created_at" createdAt else itemToInsert
  if "updated_at" ∈ cols then setField a "updated_at" createdAt else a

/-- The insert loop of `createItems` (lines 217-238): one clock read and one
INSERT per item; `actionWasPerformed` is set before `stmt.run`, so a throwing
insert still counts as a performed action. -/
def createLoop (cols : List String) : DB → List Obj → List Nat → Bool → TryRes (List Nat)
  | db, [], acc, awp => ⟨db, .ok acc.reverse, awp⟩
  | db, oldItem :: rest, acc, _awp =>
    let rc := readClock db
    let newItem := prepareCreateItem cols rc.1 oldItem
    match sqlInsert rc.2 newItem with
    | .error f => ⟨rc.2, .error f, true⟩
    | .ok (id, db2) => createLoop cols db2 rest (id :: acc) true

/-- The re-fetch loop of `createItems` (lines 239-253): read back each new
row through `getItem`; a missing or faulting read throws. -/
def createRefetch (tableName : String) (db : DB) : List Nat → List Row → Except Fault (List Row)
  | [], acc => .ok acc.reverse
  | id :: rest, acc =>
    match (getItem db tableName "rowid" id).data with
    | none =>
      .error ⟨"No item with id " ++ toString id ++ " in table \"" ++ tableName ++ "\"",
              "throw stack"⟩
    | some r => createRefetch tableName db rest (r :: acc)

/-- `createItems` (DatabaseActions.ts lines 190-281): open a group, insert
every item, re-fetch the new rows, merge the group down when the caller
declined its own undo step, compensate unconditionally in the catch block, and
advance the group in the finalizer when `useNextUndoGroup`. -/
def createItems (db0 : DB) (tableName : String) (items : List Obj)
    (useNextUndoGroup : Bool := true) :
    DatabaseResponse (List Row) × DB × OpTrace :=
  let currentUndoGroup := getCurrentUndoGroup db0
  let inc := incrementUndoGroup db0
  let groupWasIncremented : Bool := decide (currentUndoGroup ≠ inc.1)
  let cols := inc.2.columns
  let t := createLoop cols inc.2 items [] false
  let dfltMsg := "Error getting items from " ++ tableName
  match t.res with
  | .error f =>
    let dbE := clearMostRecentRedo (performUndo t.db)
    let dbF := if useNextUndoGroup then (incrementUndoGroup dbE).2 else dbE
    (mutationFailResp dfltMsg f, dbF,
     ⟨false, t.awp, false, true, useNextUndoGroup, false⟩)
  | .ok ids =>
    match createRefetch tableName t.db ids [] with
    | .error f =>
      let dbE := clearMostRecentRedo (performUndo t.db)
      let dbF := if useNextUndoGroup then (incrementUndoGroup dbE).2 else dbE
      (mutationFailResp dfltMsg f, dbF,
       ⟨false, t.awp, false, true, useNextUndoGroup, false⟩)
    | .ok newItems =>
      let merged : Bool := !useNextUndoGroup && groupWasIncremented && t.awp
      let db2 := if merged then decrementLastUndoGroup t.db else t.db
      let dbF := if useNextUndoGroup then (incrementUndoGroup db2).2 else db2
      (⟨true, none, newItems⟩, dbF,
       ⟨false, t.awp, merged, false, useNextUndoGroup, false⟩)

/-- An update argument object: `id : none` models a JS object that lacks a
(numeric) `id` property at runtime; `fields` are its other columns. -/
structure UpdItem where
  id : Option Nat
  fields : Obj
deriving Repr, DecidableEq

/-- Render one entry of the pre-validation id list as JS `Array.join` does
(`undefined` becomes the empty string). -/
def optIdStr : Option Nat → String
  | none => ""
  | some n => toString n

/-- The pre-validation failure message of `updateItems` (lines 322-324). -/
def updateNotFoundMsg (tableName : String) (notFoundIds : List (Option Nat)) : String :=
  "No items with ids [" ++ String.intercalate ", " (notFoundIds.map optIdStr) ++
    "] in table \"" ++ tableName ++ "\""

/-- The deduplicated target id list of `updateItems` (line 305):
`new Set(items.map(item => item.id))`. -/
def updateTargetIds (items : List UpdItem) : List (Option Nat) :=
  setDedup (items.map (fun i => i.id))

/-- The exhaustively collected missing ids of `updateItems` pre-validation
(lines 309-315). -/
def updateMissingIds (db : DB) (tableName : String) (items : List UpdItem) :
    List (Option Nat) :=
  (updateTargetIds items).filter (fun oid => (getItemOpt db tableName oid).data = none)

/-- Per-item preparation of `updateItems` (lines 346-353): shallow-copy and
set `updated_at` when the table declares it; the `id` is held apart from the
SET payload, as the source destructures it away. -/
def prepareUpdateItem (cols : List String) (updatedAt : Val) (oldItem : UpdItem) : UpdItem :=
  let item := oldItem
  if "updated_at" ∈ cols then ⟨item.id, setField item.fields "updated_at" updatedAt⟩ else item

/-- The update loop of `updateItems` (lines 345-368): one clock read per item
(also for skipped ones), skip-with-warning when the object lacks an `id`
(line 358), otherwise run the UPDATE; `actionWasPerformed` is set only after
a successful `stmt.run`.  Returns the collected `updateIds` and whether the
skip branch was ever taken. -/
def updateLoop (cols : List String) :
    DB → List UpdItem → List Nat → Bool → Bool → TryRes (List Nat) × Bool
  | db, [], acc, awp, sk => (⟨db, .ok acc.reverse, awp⟩, sk)
  | db, oldItem :: rest, acc, awp, sk =>
    let rc := readClock db
    let updatedItem := prepareUpdateItem cols rc.1 oldItem
    match updatedItem.id with
    | none => updateLoop cols rc.2 rest acc awp true
    | some id =>
      match sqlUpdate rc.2 id updatedItem.fields with
      | .error f => (⟨rc.2, .error f, awp⟩, sk)
      | .ok db2 => updateLoop cols db2 rest (id :: acc) true sk

/-- The re-fetch loop of `updateItems` (lines 369-381): a failed or empty
read-back throws with the accessor's error message (or "No item found"). -/
def updateRefetch (tableName : String) (db : DB) : List Nat → List Row → Except Fault (List Row)
  | [], acc => .ok acc.reverse
  | id :: rest, acc =>
    let resp := getItem db tableName "rowid" id
    match resp.data, resp.success with
    | some r, true => updateRefetch tableName db rest (r :: acc)
    | _, _ =>
      .error ⟨optMsgOr (resp.error.map (fun e => e.message)) "No item found", "throw stack"⟩

/-- `updateItems` (DatabaseActions.ts lines 288-413): exhaustive
pre-validation with an early return listing every missing id, then the
group-open / update-loop / re-fetch / merge pipeline; the catch block
compensates only when `actionWasPerformed`; the finalizer advances the group
when `useNextUndoGroup`. -/
def updateItems (db0 : DB) (tableName : String) (items : List UpdItem)
    (useNextUndoGroup : Bool := true) :
    DatabaseResponse (List Row) × DB × OpTrace :=
  let notFoundIds := updateMissingIds db0 tableName items
  if notFoundIds.length > 0 then
    (⟨false, some ⟨updateNotFoundMsg tableName notFoundIds, none⟩, []⟩, db0,
     ⟨true, false, false, false, false, false⟩)
  else
    let currentUndoGroup := getCurrentUndoGroup db0
    let inc := incrementUndoGroup db0
    let groupWasIncremented : Bool := decide (currentUndoGroup ≠ inc.1)
    let cols := inc.2.columns
    let lr := updateLoop cols inc.2 items [] false false
    let t := lr.1
    let dfltMsg := "Error updating items from " ++ tableName
    match t.res with
    | .error f =>
      let dbE := if t.awp then clearMostRecentRedo (performUndo t.db) else t.db
      let dbF := if useNextUndoGroup then (incrementUndoGroup dbE).2 else dbE
      (mutationFailResp dfltMsg f, dbF,
       ⟨false, t.awp, false, t.awp, useNextUndoGroup, lr.2⟩)
    | .ok updateIds =>
      match updateRefetch tableName t.db updateIds [] with
      | .error f =>
        let dbE := if t.awp then clearMostRecentRedo (performUndo t.db) else t.db
        let dbF := if useNextUndoGroup then (incrementUndoGroup dbE).2 else dbE
        (mutationFailResp dfltMsg f, dbF,
         ⟨false, t.awp, false, t.awp, useNextUndoGroup, lr.2⟩)
      | .ok updatedItems =>
        let merged : Bool := !useNextUndoGroup && t.awp && groupWasIncremented
        let db2 := if merged then decrementLastUndoGroup t.db else t.db
        let dbF := if useNextUndoGroup then (incrementUndoGroup db2).2 else db2
        (⟨true, none, updatedItems⟩, dbF,
         ⟨false, t.awp, merged, false, useNextUndoGroup, lr.2⟩)

/-- The pre-validation failure message of `deleteItems` (lines 459-461). -/
def deleteNotFoundMsg (tableName idColumn : String) (notFoundIds : List Nat) : String :=
  "No items with " ++ idColumn ++ "=[" ++
    String.intercalate ", " (notFoundIds.map toString) ++ "] in table \"" ++ tableName ++ "\""

/-- The exhaustively collected missing ids of `deleteItems` pre-validation
(lines 445-452). -/
def deleteMissingIds (db : DB) (tableName idColumn : String) (ids : List Nat) : List Nat :=
  (setDedup ids).filter (fun id => (getItem db tableName idColumn id).data = none)

/-- The delete loop of `deleteItems` (lines 476-489): delete each id and
collect the pre-delete snapshot from the validation map; a missing map entry
throws (unreachable after pre-validation); `actionWasPerformed` is set after a
successful `stmt.run`.  The fault side carries `currentId` for the catch
block's default message. -/
def deleteLoop (idColumn : String) (itemsMap : List (Nat × Row)) :
    DB → List Nat → List Row → Bool → TryRes (List Row)
  | db, [], acc, awp => ⟨db, .ok acc.reverse, awp⟩
  | db, id :: rest, acc, awp =>
    match itemsMap.find? (fun p => p.1 = id) with
    | none =>
      ⟨db, .error ⟨"No item found with \"" ++ idColumn ++ "\"=" ++ toString id, "throw stack"⟩,
       awp⟩
    | some p =>
      match sqlDelete db id with
      | .error f => ⟨db, .error f, awp⟩
      | .ok db2 => deleteLoop idColumn itemsMap db2 rest (p.2 :: acc) true

/-- `deleteItems` (DatabaseActions.ts lines 423-525): exhaustive
pre-validation (also snapshotting each row), an early return listing every
missing id, then the try block — which increments the undo group TWICE (lines
471 and 474) — the delete loop, merge-down, compensation guarded by
`actionWasPerformed`, and the group-advancing finalizer.  `useNextUndoGroup`
has no default in the source (an omitted argument is falsy JS `undefined`), so
the model makes it a required argument. -/
def deleteItems (db0 : DB) (tableName : String) (ids : List Nat)
    (useNextUndoGroup : Bool) (idColumn : String := "rowid") :
    DatabaseResponse (List Row) × DB × OpTrace :=
  let uids := setDedup ids
  let notFoundIds := deleteMissingIds db0 tableName idColumn ids
  let itemsMap := uids.filterMap (fun id =>
    ((getItem db0 tableName idColumn id).data).map (fun r => (id, r)))
  if notFoundIds.length > 0 then
    (⟨false, some ⟨deleteNotFoundMsg tableName idColumn notFoundIds, none⟩, []⟩, db0,
     ⟨true, false, false, false, false, false⟩)
  else
    let currentUndoGroup := getCurrentUndoGroup db0
    let inc := incrementUndoGroup db0
    let groupWasIncremented : Bool := decide (currentUndoGroup ≠ inc.1)
    let db2 := (incrementUndoGroup inc.2).2
    let t := deleteLoop idColumn itemsMap db2 uids [] false
    let dfltMsg := "Error deleting items " ++ idColumn ++ "=" ++
      String.intercalate ", " (ids.map toString)
    match t.res with
    | .error f =>
      let dbE := if t.awp then clearMostRecentRedo (performUndo t.db) else t.db
      let dbF := if useNextUndoGroup then (incrementUndoGroup dbE).2 else dbE
      (mutationFailResp dfltMsg f, dbF,
       ⟨false, t.awp, false, t.awp, useNextUndoGroup, false⟩)
    | .ok deletedObjects =>
      let merged : Bool := !useNextUndoGroup && t.awp && groupWasIncremented
      let db3 := if merged then decrementLastUndoGroup t.db else t.db
      let dbF := if useNextUndoGroup then (incrementUndoGroup db3).2 else db3
      (⟨true, none, deletedObjects⟩, dbF,
       ⟨false, t.awp, merged, false, useNextUndoGroup, false⟩)

/-! ### Basic lemmas -/

theorem msgOr_of_ne (s d : String) (h : s ≠ "") : msgOr s d = s := by
  simp [msgOr, h]

theorem jsTruthy_of_ne_zero (p : Nat) (h : p ≠ 0) : jsTruthy (some p) = true := by
  cases p with
  | zero => exact absurd rfl h
  | succ n => rfl

theorem mem_setDedup {α : Type} [DecidableEq α] (x : α) (l : List α) :
    x ∈ setDedup l ↔ x ∈ l := by
  induction l with
  | nil => simp [setDedup]
  | cons a as ih =>
    simp only [setDedup, List.mem_cons, List.mem_filter]
    constructor
    · rintro (rfl | ⟨hx, _⟩)
      · exact Or.inl rfl
      · exact Or.inr (ih.mp hx)
    · rintro (rfl | hx)
      · exact Or.inl rfl
      · by_cases hxa : x = a
        · exact Or.inl hxa
        · exact Or.inr ⟨ih.mpr hx, by simpa using hxa⟩

theorem listMax?_nil_iff (l : List Nat) : listMax? l = none ↔ l = [] := by
  cases l with
  | nil => simp [listMax?]
  | cons a as =>
    simp only [listMax?]
    constructor
    · intro h; cases hh : listMax? as <;> simp [hh] at h
    · intro h; exact absurd h (by simp)

theorem listMax?_mem (l : List Nat) (m : Nat) (h : listMax? l = some m) : m ∈ l := by
  induction l generalizing m with
  | nil => simp [listMax?] at h
  | cons a as ih =>
    simp only [listMax?] at h
    cases hh : listMax? as with
    | none =>
      rw [hh] at h; injection h with h; subst h; exact List.mem_cons_self _ _
    | some k =>
      rw [hh] at h; injection h with h
      rcases max_choice a k with hc | hc
      · rw [hc] at h; subst h; exact List.mem_cons_self _ _
      · rw [hc] at h; subst h; exact List.mem_cons_of_mem a (ih k hh)

theorem listMax?_le (l : List Nat) (m : Nat) (h : listMax? l = some m) :
    ∀ x ∈ l, x ≤ m := by
  induction l generalizing m with
  | nil => intro x hx; cases hx
  | cons a as ih =>
    intro x hx
    simp only [listMax?] at h
    cases hh : listMax? as with
    | none =>
      rw [hh] at h; injection h with h; subst h
      have hnil := (listMax?_nil_iff as).mp hh
      subst hnil
      rcases List.mem_cons.mp hx with rfl | hx'
      · exact le_refl x
      · cases hx'
    | some k =>
      rw [hh] at h; injection h with h; subst h
      rcases List.mem_cons.mp hx with rfl | hx'
      · exact Nat.le_max_left _ _
      · exact le_trans (ih k hh x hx') (Nat.le_max_right _ _)

theorem listMax?_eq_some (l : List Nat) (m : Nat) (hm : m ∈ l) (hb : ∀ x ∈ l, x ≤ m) :
    listMax? l = some m := by
  induction l with
  | nil => cases hm
  | cons a as ih =>
    simp only [listMax?]
    cases h : listMax? as with
    | none =>
      have hnil := (listMax?_nil_iff as).mp h
      subst hnil
      rcases List.mem_cons.mp hm with rfl | hx
      · rfl
      · cases hx
    | some k =>
      have hk_mem : k ∈ as := listMax?_mem as k h
      have hk_le : k ≤ m := hb k (List.mem_cons_of_mem a hk_mem)
      have ha_le : a ≤ m := hb a (List.mem_cons_self a as)
      have hmax : max a k = m := by
        rcases List.mem_cons.mp hm with rfl | hx
        · exact Nat.max_eq_left hk_le
        · have hmk : m ≤ k := listMax?_le as k h m hx
          have hkm : k = m := le_antisymm hk_le hmk
          subst hkm
          exact Nat.max_eq_right ha_le
      show some (max a k) = some m
      rw [hmax]

/-- Pre-validation failure of `updateItems`: the early return gives back the
untouched store, the exhaustive missing-id message, and an empty trace. -/
theorem updateItems_preval (db : DB) (tbl : String) (items : List UpdItem) (u : Bool)
    (h : updateMissingIds db tbl items ≠ []) :
    updateItems db tbl items u =
      (⟨false, some ⟨updateNotFoundMsg tbl (updateMissingIds db tbl items), none⟩, []⟩, db,
       ⟨true, false, false, false, false, false⟩) := by
  have hl : 0 < (updateMissingIds db tbl items).length := List.length_pos.mpr h
  simp only [updateItems]
  rw [if_pos hl]

/-- Pre-validation failure of `deleteItems`: the early return gives back the
untouched store, the exhaustive missing-id message, and an empty trace. -/
theorem deleteItems_preval (db : DB) (tbl idc : String) (ids : List Nat) (u : Bool)
    (h : deleteMissingIds db tbl idc ids ≠ []) :
    deleteItems db tbl ids u idc =
      (⟨false, some ⟨deleteNotFoundMsg tbl idc (deleteMissingIds db tbl idc ids), none⟩, []⟩, db,
       ⟨true, false, false, false, false, false⟩) := by
  have hl : 0 < (deleteMissingIds db tbl idc ids).length := List.length_pos.mpr h
  simp only [deleteItems]
  rw [if_pos hl]

/-! ### Response-shape case lemmas -/

/-- The invariant of spec section 3 on one response: success implies no
error, failure implies the neutral value. -/
def respNeutral {α : Type} (r : DatabaseResponse α) (neutral : α) : Prop :=
  (r.success = true → r.error = none) ∧ (r.success = false → r.data = neutral)

theorem respNeutral_of_cases {α : Type} (r : DatabaseResponse α) (n : α)
    (h : r.success = true ∧ r.error = none ∨ r.success = false ∧ r.data = n) :
    respNeutral r n := by
  rcases h with ⟨hs, he⟩ | ⟨hs, hd⟩
  · refine ⟨fun _ => he, fun hf => ?_⟩
    rw [hs] at hf
    cases hf
  · refine ⟨fun ht => ?_, fun _ => hd⟩
    rw [hs] at ht
    cases ht

theorem getItem_resp_cases (db : DB) (tbl idc : String) (id : Nat) :
    (getItem db tbl idc id).success = true ∧ (getItem db tbl idc id).error = none ∨
    (getItem db tbl idc id).success = false ∧ (getItem db tbl idc id).data = none := by
  unfold getItem
  cases sqlSelect db id with
  | error f => right; exact ⟨rfl, rfl⟩
  | ok o =>
    cases o with
    | none => right; exact ⟨rfl, rfl⟩
    | some r => left; exact ⟨rfl, rfl⟩

theorem getAllItems_resp_cases (db : DB) (tbl : String) :
    (getAllItems db tbl).success = true ∧ (getAllItems db tbl).error = none ∨
    (getAllItems db tbl).success = false ∧ (getAllItems db tbl).data = [] := by
  unfold getAllItems
  by_cases h : db.failSelectAll
  · right; rw [if_pos h]; exact ⟨rfl, rfl⟩
  · left; rw [if_neg h]; exact ⟨rfl, rfl⟩

theorem createItems_resp_cases (db : DB) (tbl : String) (items : List Obj) (u : Bool) :
    (createItems db tbl items u).1.success = true ∧ (createItems db tbl items u).1.error = none ∨
    (createItems db tbl items u).1.success = false ∧ (createItems db tbl items u).1.data = [] := by
  simp only [createItems]
  split
  · right; exact ⟨rfl, rfl⟩
  · split
    · right; exact ⟨rfl, rfl⟩
    · left; exact ⟨rfl, rfl⟩

theorem updateItems_resp_cases (db : DB) (tbl : String) (items : List UpdItem) (u : Bool) :
    (updateItems db tbl items u).1.success = true ∧ (updateItems db tbl items u).1.error = none ∨
    (updateItems db tbl items u).1.success = false ∧ (updateItems db tbl items u).1.data = [] := by
  simp only [updateItems]
  split
  · right; exact ⟨rfl, rfl⟩
  · split
    · right; exact ⟨rfl, rfl⟩
    · split
      · right; exact ⟨rfl, rfl⟩
      · left; exact ⟨rfl, rfl⟩

theorem deleteItems_resp_cases (db : DB) (tbl idc : String) (ids : List Nat) (u : Bool) :
    (deleteItems db tbl ids u idc).1.success = true ∧
      (deleteItems db tbl ids u idc).1.error = none ∨
    (deleteItems db tbl ids u idc).1.success = false ∧
      (deleteItems db tbl ids u idc).1.data = [] := by
  simp only [deleteItems]
  split
  · right; exact ⟨rfl, rfl⟩
  · split
    · right; exact ⟨rfl, rfl⟩
    · left; exact ⟨rfl, rfl⟩

/-! ### Concrete stores for witnesses and counterexamples -/

/-- An empty `widgets`-style table with timestamp columns and a ticking
clock; no faults scheduled. -/
def dbBase : DB :=
  { rows := []
    columns := ["name", "created_at", "updated_at"]
    nextRowId := 1
    history := []
    redoStack := []
    currentGroup := 0
    clockStream := [10, 20, 30, 40, 50, 60]
    clockIdx := 0
    writeIdx := 0
    failWrites := []
    failSelects := []
    failSelectAll := false }

/-- A store already holding one row with rowid 1. -/
def dbWithRow : DB :=
  { dbBase with rows := [⟨1, [("name", "a")]⟩], nextRowId := 2 }

/-! ### C1 -/

/-- C1: for every `updateMany`/`deleteMany` call in which some target id does
not resolve, the call returns immediately with `success=false` and empty
data, the error message lists the exhaustively collected missing-id list
(every unresolved target id is a member of that list, not just the first),
and the store is returned completely unchanged — zero writes. -/
theorem C1_missing_ids_reject_without_writes
    (db : DB) (tbl idc : String) (items : List UpdItem) (ids : List Nat) (u1 u2 : Bool)
    (hu : updateMissingIds db tbl items ≠ [])
    (hd : deleteMissingIds db tbl idc ids ≠ []) :
    ((updateItems db tbl items u1).1.success = false ∧
     (updateItems db tbl items u1).1.data = [] ∧
     (updateItems db tbl items u1).1.error =
       some ⟨updateNotFoundMsg tbl (updateMissingIds db tbl items), none⟩ ∧
     (updateItems db tbl items u1).2.1 = db ∧
     (∀ oid ∈ updateTargetIds items, (getItemOpt db tbl oid).data = none →
        oid ∈ updateMissingIds db tbl items)) ∧
    ((deleteItems db tbl ids u2 idc).1.success = false ∧
     (deleteItems db tbl ids u2 idc).1.data = [] ∧
     (deleteItems db tbl ids u2 idc).1.error =
       some ⟨deleteNotFoundMsg tbl idc (deleteMissingIds db tbl idc ids), none⟩ ∧
     (deleteItems db tbl ids u2 idc).2.1 = db ∧
     (∀ i ∈ setDedup ids, (getItem db tbl idc i).data = none →
        i ∈ deleteMissingIds db tbl idc ids)) := by
  rw [updateItems_preval db tbl items u1 hu, deleteItems_preval db tbl idc ids u2 hd]
  refine ⟨⟨rfl, rfl, rfl, rfl, ?_⟩, ⟨rfl, rfl, rfl, rfl, ?_⟩⟩
  · intro oid hmem hnone
    exact List.mem_filter.mpr ⟨hmem, by simp [hnone]⟩
  · intro i hmem hnone
    exact List.mem_filter.mpr ⟨hmem, by simp [hnone]⟩

/-- Witness for C1: a batch with one valid id (1) and one invalid id
(7 resp. 9999) against a store holding only rowid 1. -/
theorem C1_witness :
    updateMissingIds dbWithRow "widgets" [⟨some 1, [("name", "z")]⟩, ⟨some 7, []⟩] ≠ [] ∧
    deleteMissingIds dbWithRow "widgets" "rowid" [1, 9999] ≠ [] ∧
    (updateItems dbWithRow "widgets" [⟨some 1, [("name", "z")]⟩, ⟨some 7, []⟩] true).1.success
      = false ∧
    (updateItems dbWithRow "widgets" [⟨some 1, [("name", "z")]⟩, ⟨some 7, []⟩] true).2.1
      = dbWithRow ∧
    (deleteItems dbWithRow "widgets" [1, 9999] true "rowid").1.success = false ∧
    (deleteItems dbWithRow "widgets" [1, 9999] true "rowid").2.1 = dbWithRow := by
  have h := C1_missing_ids_reject_without_writes dbWithRow "widgets" "rowid"
    [⟨some 1, [("name", "z")]⟩, ⟨some 7, []⟩] [1, 9999] true true
    (by decide) (by decide)
  exact ⟨by decide, by decide, h.1.1, h.1.2.2.2.1, h.2.1, h.2.2.2.2.1⟩

/-! ### C5 -/

/-- C5: every `DatabaseResponse` returned by `getItem`, `getAllItems`,
`createItems`, `updateItems` or `deleteItems` satisfies the invariant:
`success=true` implies the error field is absent, and `success=false` implies
the data is the operation's neutral value (`none` for the single-row
accessor, `[]` for every list-valued operation). -/
theorem C5_response_invariant
    (db : DB) (tbl idc : String) (id : Nat) (citems : List Obj)
    (uitems : List UpdItem) (dids : List Nat) (u1 u2 u3 : Bool) :
    respNeutral (getItem db tbl idc id) none ∧
    respNeutral (getAllItems db tbl) [] ∧
    respNeutral (createItems db tbl citems u1).1 [] ∧
    respNeutral (updateItems db tbl uitems u2).1 [] ∧
    respNeutral (deleteItems db tbl dids u3 idc).1 [] :=
  ⟨respNeutral_of_cases _ _ (getItem_resp_cases db tbl idc id),
   respNeutral_of_cases _ _ (getAllItems_resp_cases db tbl),
   respNeutral_of_cases _ _ (createItems_resp_cases db tbl citems u1),
   respNeutral_of_cases _ _ (updateItems_resp_cases db tbl uitems u2),
   respNeutral_of_cases _ _ (deleteItems_resp_cases db tbl idc dids u3)⟩

/-- Witness for C5: a failing `deleteItems` call (missing id 9999) has empty
data, and a succeeding `getItem` call carries no error. -/
theorem C5_witness :
    (deleteItems dbWithRow "widgets" [9999] true "rowid").1.data = [] ∧
    (getItem dbWithRow "widgets" "rowid" 1).error = none := by
  have h := C5_response_invariant dbWithRow "widgets" "rowid" 1 [] [] [9999] true true true
  exact ⟨h.2.2.2.2.2 (by decide), h.1.1 (by decide)⟩

/-! ### C6 -/

/-- C6: `getItem` settles every outcome of the underlying parameterized
lookup into a structured response and never re-throws: a store fault is
caught and reported as `success=false` carrying the fault's message and
stack; zero matching rows give `success=false` with the descriptive NotFound
message, without throwing; a matching row gives `success=true`. -/
theorem C6_getOne_never_throws (db : DB) (tbl idc : String) (id : Nat) :
    (∀ f, sqlSelect db id = .error f →
      getItem db tbl idc id =
        ⟨false,
         some ⟨msgOr f.message ("Error getting item \"" ++ idc ++ "\"=" ++ toString id),
               some (msgOr f.stack "Unable to get error stack")⟩,
         none⟩) ∧
    (sqlSelect db id = .ok none →
      getItem db tbl idc id = ⟨false, some ⟨getItemNotFoundMsg idc id tbl, none⟩, none⟩) ∧
    (∀ r, sqlSelect db id = .ok (some r) →
      getItem db tbl idc id = ⟨true, none, some r⟩) := by
  refine ⟨?_, ?_, ?_⟩
  · intro f h; unfold getItem; rw [h]
  · intro h; unfold getItem; rw [h]
  · intro r h; unfold getItem; rw [h]

/-- Witness for C6: id 5 is on the fault schedule of this store, id 1 is
absent from the table, and both outcomes are structured failures. -/
theorem C6_witness :
    sqlSelect { dbBase with failSelects := [5] } 5 =
      .error ⟨"store fault on select 5", "store stack"⟩ ∧
    (getItem { dbBase with failSelects := [5] } "widgets" "rowid" 5).success = false ∧
    sqlSelect dbBase 1 = .ok none ∧
    getItem dbBase "widgets" "rowid" 1 =
      ⟨false, some ⟨getItemNotFoundMsg "rowid" 1 "widgets", none⟩, none⟩ := by
  have h1 := (C6_getOne_never_throws { dbBase with failSelects := [5] } "widgets" "rowid" 5).1
    ⟨"store fault on select 5", "store stack"⟩ rfl
  have h2 := (C6_getOne_never_throws dbBase "widgets" "rowid" 1).2.1 rfl
  exact ⟨rfl, by rw [h1], rfl, h2⟩

/-! ### C7 -/

/-- A history log whose groups are 0 and 1: the largest group strictly below
the maximum is 0, which is falsy in JS. -/
def dbC7 : DB := { dbBase with history := [⟨0, .ins 1⟩, ⟨1, .ins 2⟩] }

/-- A history log whose groups are 1 and 2: the previous group is truthy. -/
def dbC7b : DB := { dbBase with history := [⟨1, .ins 1⟩, ⟨2, .ins 2⟩] }

/-- C7 counterexample: the history of `dbC7` contains group 0, strictly
smaller than its maximum group 1, yet `decrementLastUndoGroup` leaves the log
unchanged — the group-1 record is NOT re-tagged to 0, because the source's
`if (previousGroup)` treats the SQL value 0 as falsy. -/
theorem C7_counterexample :
    (0 : Nat) ∈ dbC7.history.map (fun r => r.group) ∧
    listMax? (dbC7.history.map (fun r => r.group)) = some 1 ∧
    (0 : Nat) < 1 ∧
    decrementLastUndoGroup dbC7 = dbC7 ∧
    (⟨1, .ins 2⟩ : HistRec) ∈ (decrementLastUndoGroup dbC7).history := by
  exact ⟨by decide, rfl, by decide, rfl, by decide⟩

/-- Behavior of `decrementLastUndoGroup`: re-tag the maximum group's records
to the largest strictly-smaller group when that group exists and is truthy;
otherwise do nothing. -/
theorem decrementLastUndoGroup_behavior (db : DB) :
    (∀ m p, listMax? (db.history.map (fun r => r.group)) = some m →
      listMax? ((db.history.map (fun r => r.group)).filter (fun g => g < m)) = some p →
      p ≠ 0 →
      decrementLastUndoGroup db =
        { db with history := db.history.map (fun r =>
            if r.group = m then ⟨p, r.change⟩ else r) }) ∧
    (listMax? (db.history.map (fun r => r.group)) = none →
      decrementLastUndoGroup db = db) ∧
    (∀ m, listMax? (db.history.map (fun r => r.group)) = some m →
      listMax? ((db.history.map (fun r => r.group)).filter (fun g => g < m)) = none →
      decrementLastUndoGroup db = db) ∧
    (∀ m, listMax? (db.history.map (fun r => r.group)) = some m →
      listMax? ((db.history.map (fun r => r.group)).filter (fun g => g < m)) = some 0 →
      decrementLastUndoGroup db = db) := by
  refine ⟨?_, ?_, ?_, ?_⟩
  · intro m p hm hp hp0
    simp only [decrementLastUndoGroup, hm, hp, jsTruthy_of_ne_zero p hp0, if_true]
    simp only [Option.some.injEq, Option.getD_some]
  · intro hm
    simp only [decrementLastUndoGroup, hm]
    rfl
  · intro m hm hp
    simp only [decrementLastUndoGroup, hm, hp]
    rfl
  · intro m hm hp
    simp only [decrementLastUndoGroup, hm, hp]
    rfl

/-- C7 (amended): when the largest group strictly below the maximum exists
AND is non-zero, every record of the maximum group is re-tagged to it;
when the history is empty, when no strictly-smaller group exists, or when the
largest strictly-smaller group is 0 (falsy in the source's truthiness check),
the operation leaves the store unchanged. -/
theorem C7_amended_merge_retag_or_noop (db : DB) :
    (∀ m p, listMax? (db.history.map (fun r => r.group)) = some m →
      listMax? ((db.history.map (fun r => r.group)).filter (fun g => g < m)) = some p →
      p ≠ 0 →
      decrementLastUndoGroup db =
        { db with history := db.history.map (fun r =>
            if r.group = m then ⟨p, r.change⟩ else r) }) ∧
    (listMax? (db.history.map (fun r => r.group)) = none →
      decrementLastUndoGroup db = db) ∧
    (∀ m, listMax? (db.history.map (fun r => r.group)) = some m →
      listMax? ((db.history.map (fun r => r.group)).filter (fun g => g < m)) = none →
      decrementLastUndoGroup db = db) ∧
    (∀ m, listMax? (db.history.map (fun r => r.group)) = some m →
      listMax? ((db.history.map (fun r => r.group)).filter (fun g => g < m)) = some 0 →
      decrementLastUndoGroup db = db) :=
  decrementLastUndoGroup_behavior db

/-- Witness for C7 (amended): on groups {1, 2} the maximum group's record is
re-tagged to 1; on the empty history the operation is the identity. -/
theorem C7_witness :
    decrementLastUndoGroup dbC7b = { dbC7b with history := [⟨1, .ins 1⟩, ⟨1, .ins 2⟩] } ∧
    decrementLastUndoGroup dbBase = dbBase := by
  have h1 := (C7_amended_merge_retag_or_noop dbC7b).1 2 1 rfl rfl (by decide)
  have h2 := (C7_amended_merge_retag_or_noop dbBase).2.1 rfl
  exact ⟨by rw [h1]; rfl, h2⟩

/-! ### Preservation lemmas for the primitives and loops -/

theorem sqlInsert_ok (db : DB) (fs : Obj) (id : Nat) (db' : DB)
    (h : sqlInsert db fs = .ok (id, db')) :
    id = db.nextRowId ∧
    db' = { db with
            rows := db.rows ++ [⟨id, fs⟩]
            nextRowId := id + 1
            writeIdx := db.writeIdx + 1
            history := db.history ++ [⟨db.currentGroup, .ins id⟩] } := by
  unfold sqlInsert at h
  split at h
  · cases h
  · simp only [Except.ok.injEq, Prod.mk.injEq] at h
    refine ⟨h.1.symm, ?_⟩
    rw [← h.2, ← h.1]

theorem sqlUpdate_ok_same (db : DB) (id : Nat) (us : Obj) (db' : DB)
    (h : sqlUpdate db id us = .ok db') :
    db'.currentGroup = db.currentGroup ∧ db'.columns = db.columns ∧
    db'.failWrites = db.failWrites ∧ db'.failSelects = db.failSelects := by
  unfold sqlUpdate at h
  split at h
  · cases h
  · split at h
    · injection h with h
      subst h
      exact ⟨rfl, rfl, rfl, rfl⟩
    · injection h with h
      subst h
      exact ⟨rfl, rfl, rfl, rfl⟩

theorem sqlDelete_ok_same (db : DB) (id : Nat) (db' : DB)
    (h : sqlDelete db id = .ok db') :
    db'.currentGroup = db.currentGroup ∧ db'.columns = db.columns ∧
    db'.failWrites = db.failWrites ∧ db'.failSelects = db.failSelects := by
  unfold sqlDelete at h
  split at h
  · cases h
  · split at h
    · injection h with h
      subst h
      exact ⟨rfl, rfl, rfl, rfl⟩
    · injection h with h
      subst h
      exact ⟨rfl, rfl, rfl, rfl⟩

theorem performUndo_currentGroup (db : DB) :
    (performUndo db).currentGroup = db.currentGroup := by
  unfold performUndo
  cases h : listMax? (db.history.map (fun r => r.group)) with
  | none => rfl
  | some g => rfl

theorem clearMostRecentRedo_currentGroup (db : DB) :
    (clearMostRecentRedo db).currentGroup = db.currentGroup := by
  unfold clearMostRecentRedo
  cases db.redoStack with
  | nil => rfl
  | cons a rest => rfl

theorem decrementLastUndoGroup_currentGroup (db : DB) :
    (decrementLastUndoGroup db).currentGroup = db.currentGroup := by
  simp only [decrementLastUndoGroup]
  split
  · rfl
  · rfl

theorem createLoop_currentGroup (cols : List String) (items : List Obj) :
    ∀ (db : DB) (acc : List Nat) (awp : Bool),
      (createLoop cols db items acc awp).db.currentGroup = db.currentGroup := by
  induction items with
  | nil => intro db acc awp; rfl
  | cons it rest ih =>
    intro db acc awp
    simp only [createLoop]
    cases h : sqlInsert (readClock db).2 (prepareCreateItem cols (readClock db).1 it) with
    | error f => rfl
    | ok p =>
      rcases p with ⟨id, db2⟩
      have h2 : db2.currentGroup = (readClock db).2.currentGroup := by
        rw [(sqlInsert_ok _ _ _ _ h).2]
      exact (ih db2 (id :: acc) true).trans h2

theorem prepareUpdateItem_id (cols : List String) (ts : Val) (it : UpdItem) :
    (prepareUpdateItem cols ts it).id = it.id := by
  unfold prepareUpdateItem
  split
  · rfl
  · rfl

theorem updateLoop_currentGroup (cols : List String) (items : List UpdItem) :
    ∀ (db : DB) (acc : List Nat) (awp sk : Bool),
      (updateLoop cols db items acc awp sk).1.db.currentGroup = db.currentGroup := by
  induction items with
  | nil => intro db acc awp sk; rfl
  | cons it rest ih =>
    intro db acc awp sk
    simp only [updateLoop]
    cases hid : (prepareUpdateItem cols (readClock db).1 it).id with
    | none => exact ih (readClock db).2 acc awp true
    | some id =>
      dsimp only
      cases h : sqlUpdate (readClock db).2 id (prepareUpdateItem cols (readClock db).1 it).fields with
      | error f => rfl
      | ok db2 =>
        exact (ih db2 (id :: acc) true sk).trans (sqlUpdate_ok_same _ _ _ _ h).1

theorem deleteLoop_currentGroup (idc : String) (itemsMap : List (Nat × Row)) (ids : List Nat) :
    ∀ (db : DB) (acc : List Row) (awp : Bool),
      (deleteLoop idc itemsMap db ids acc awp).db.currentGroup = db.currentGroup := by
  induction ids with
  | nil => intro db acc awp; rfl
  | cons id rest ih =>
    intro db acc awp
    simp only [deleteLoop]
    cases hm : itemsMap.find? (fun p => p.1 = id) with
    | none => rfl
    | some p =>
      dsimp only
      cases h : sqlDelete db id with
      | error f => rfl
      | ok db2 =>
        exact (ih db2 (p.2 :: acc) true).trans (sqlDelete_ok_same _ _ _ h).1

theorem if_bool_true {α : Type} (a b : α) : (if (true : Bool) = true then a else b) = a := rfl

theorem if_bool_false {α : Type} (a b : α) : (if (false : Bool) = true then a else b) = b := rfl

theorem incrementUndoGroup_snd_currentGroup (db : DB) :
    (incrementUndoGroup db).2.currentGroup = db.currentGroup + 1 := rfl

theorem if_prop_true {α : Type} {h : Decidable True} (a b : α) :
    (if True then a else b) = a := if_pos trivial

/-- The catch block's compensation (guarded by `actionWasPerformed`) does not
touch the group counter. -/
theorem compensate_currentGroup (db : DB) (b : Bool) :
    (if b = true then clearMostRecentRedo (performUndo db) else db).currentGroup
      = db.currentGroup := by
  cases b
  · rfl
  · rw [if_bool_true, clearMostRecentRedo_currentGroup, performUndo_currentGroup]

/-- `createItems` with `useNextUndoGroup = true`: the finalizer runs on every
exit path and the counter advances by exactly 2 (the opened group plus the
finalizer's fresh group). -/
theorem createItems_true_group (db : DB) (tbl : String) (items : List Obj) :
    (createItems db tbl items true).2.2.finalized = true ∧
    (createItems db tbl items true).2.1.currentGroup = db.currentGroup + 2 := by
  simp only [createItems]
  split
  · refine ⟨rfl, ?_⟩
    simp only [Bool.not_true, Bool.false_and, if_bool_false, if_prop_true,
      incrementUndoGroup_snd_currentGroup, clearMostRecentRedo_currentGroup,
      performUndo_currentGroup, compensate_currentGroup, createLoop_currentGroup]
  · split
    · refine ⟨rfl, ?_⟩
      simp only [Bool.not_true, Bool.false_and, if_bool_false, if_prop_true,
        incrementUndoGroup_snd_currentGroup, clearMostRecentRedo_currentGroup,
        performUndo_currentGroup, compensate_currentGroup, createLoop_currentGroup]
    · refine ⟨rfl, ?_⟩
      simp only [Bool.not_true, Bool.false_and, if_bool_false, if_prop_true,
        incrementUndoGroup_snd_currentGroup, clearMostRecentRedo_currentGroup,
        performUndo_currentGroup, compensate_currentGroup, createLoop_currentGroup]

/-- `updateItems` with `useNextUndoGroup = true` past pre-validation: the
finalizer runs on every exit path of the try block and the counter advances
by exactly 2. -/
theorem updateItems_true_group (db : DB) (tbl : String) (items : List UpdItem)
    (h : updateMissingIds db tbl items = []) :
    (updateItems db tbl items true).2.2.finalized = true ∧
    (updateItems db tbl items true).2.1.currentGroup = db.currentGroup + 2 := by
  simp only [updateItems]
  rw [if_neg (by simp [h])]
  split
  · refine ⟨rfl, ?_⟩
    simp only [Bool.not_true, Bool.false_and, if_bool_false, if_prop_true,
      incrementUndoGroup_snd_currentGroup, clearMostRecentRedo_currentGroup,
      performUndo_currentGroup, compensate_currentGroup, updateLoop_currentGroup]
  · split
    · refine ⟨rfl, ?_⟩
      simp only [Bool.not_true, Bool.false_and, if_bool_false, if_prop_true,
        incrementUndoGroup_snd_currentGroup, clearMostRecentRedo_currentGroup,
        performUndo_currentGroup, compensate_currentGroup, updateLoop_currentGroup]
    · refine ⟨rfl, ?_⟩
      simp only [Bool.not_true, Bool.false_and, if_bool_false, if_prop_true,
        incrementUndoGroup_snd_currentGroup, clearMostRecentRedo_currentGroup,
        performUndo_currentGroup, compensate_currentGroup, updateLoop_currentGroup]

/-- `deleteItems` with `useNextUndoGroup = true` past pre-validation: the
finalizer runs on every exit path of the try block, and the counter advances
by exactly 3 — the try block increments the group twice (source lines 471 and
474) before the finalizer's increment. -/
theorem deleteItems_true_group (db : DB) (tbl idc : String) (ids : List Nat)
    (h : deleteMissingIds db tbl idc ids = []) :
    (deleteItems db tbl ids true idc).2.2.finalized = true ∧
    (deleteItems db tbl ids true idc).2.1.currentGroup = db.currentGroup + 3 := by
  simp only [deleteItems]
  rw [if_neg (by simp [h])]
  split
  · refine ⟨rfl, ?_⟩
    simp only [Bool.not_true, Bool.false_and, if_bool_false, if_prop_true,
      incrementUndoGroup_snd_currentGroup, clearMostRecentRedo_currentGroup,
      performUndo_currentGroup, compensate_currentGroup, deleteLoop_currentGroup]
  · refine ⟨rfl, ?_⟩
    simp only [Bool.not_true, Bool.false_and, if_bool_false, if_prop_true,
      incrementUndoGroup_snd_currentGroup, clearMostRecentRedo_currentGroup,
      performUndo_currentGroup, compensate_currentGroup, deleteLoop_currentGroup]

/-! ### C9 -/

/-- C9 counterexample: `deleteItems` called with `useNextUndoGroup = true`
and a missing target id exits through the pre-validation return, which is
OUTSIDE the try/finally — the finalizer never runs and the group counter does
not advance, contradicting the claim that `nextGroup()` is called on every
exit path. -/
theorem C9_counterexample :
    (deleteItems dbBase "widgets" [99] true "rowid").2.2.finalized = false ∧
    (deleteItems dbBase "widgets" [99] true "rowid").2.1.currentGroup
      = dbBase.currentGroup := by
  exact ⟨rfl, rfl⟩

/-- C9 (amended): with `useNextUndoGroup = true` the finalizer calls
`nextGroup()` on every exit path of the try block — success, write fault or
re-fetch fault alike (`createMany`: counter +2 unconditionally; `updateMany`:
counter +2 whenever pre-validation passes; `deleteMany`: counter +3, its try
block advancing the group twice before the finalizer) — EXCEPT the
pre-validation failure return of `updateMany`/`deleteMany`, which exits
before the try/finally is entered, performs no group advance, and leaves the
store untouched. -/
theorem C9_amended_finalizer (db : DB) (tbl idc : String) (citems : List Obj)
    (uitems : List UpdItem) (dids : List Nat) :
    ((createItems db tbl citems true).2.2.finalized = true ∧
     (createItems db tbl citems true).2.1.currentGroup = db.currentGroup + 2) ∧
    (updateMissingIds db tbl uitems = [] →
      (updateItems db tbl uitems true).2.2.finalized = true ∧
      (updateItems db tbl uitems true).2.1.currentGroup = db.currentGroup + 2) ∧
    (updateMissingIds db tbl uitems ≠ [] →
      (updateItems db tbl uitems true).2.2.finalized = false ∧
      (updateItems db tbl uitems true).2.1 = db) ∧
    (deleteMissingIds db tbl idc dids = [] →
      (deleteItems db tbl dids true idc).2.2.finalized = true ∧
      (deleteItems db tbl dids true idc).2.1.currentGroup = db.currentGroup + 3) ∧
    (deleteMissingIds db tbl idc dids ≠ [] →
      (deleteItems db tbl dids true idc).2.2.finalized = false ∧
      (deleteItems db tbl dids true idc).2.1 = db) := by
  refine ⟨createItems_true_group db tbl citems, ?_, ?_, ?_, ?_⟩
  · intro h; exact updateItems_true_group db tbl uitems h
  · intro h; rw [updateItems_preval db tbl uitems true h]; exact ⟨rfl, rfl⟩
  · intro h; exact deleteItems_true_group db tbl idc dids h
  · intro h; rw [deleteItems_preval db tbl idc dids true h]; exact ⟨rfl, rfl⟩

/-- Witness for C9 (amended): concrete calls against the base store — a
successful two-row create advances the counter by 2, a successful delete of
row 1 advances it by 3, and a pre-validation failure leaves it at 0. -/
theorem C9_witness :
    (createItems dbBase "widgets" [[("name", "a")]] true).2.1.currentGroup
      = dbBase.currentGroup + 2 ∧
    deleteMissingIds dbWithRow "widgets" "rowid" [1] = [] ∧
    (deleteItems dbWithRow "widgets" [1] true "rowid").2.1.currentGroup
      = dbWithRow.currentGroup + 3 ∧
    updateMissingIds dbBase "widgets" [⟨some 42, []⟩] ≠ [] ∧
    (updateItems dbBase "widgets" [⟨some 42, []⟩] true).2.1 = dbBase := by
  have h := C9_amended_finalizer dbWithRow "widgets" "rowid" [] [] [1]
  have h2 := C9_amended_finalizer dbBase "widgets" "rowid" [[("name", "a")]]
    [⟨some 42, []⟩] []
  exact ⟨h2.1.2, by decide, (h.2.2.2.1 (by decide)).2, by decide,
    (h2.2.2.1 (by decide)).2⟩

/-! ### C8 -/

/-- An item without an id never resolves: binding `undefined` throws inside
the accessor, whose catch yields an undefined `data`. -/
theorem getItemOpt_none_data (db : DB) (tbl : String) :
    (getItemOpt db tbl none).data = none := rfl

/-- If some batch item lacks an id, `undefined` lands in the pre-validation
target set and is collected among the missing ids. -/
theorem updateMissing_of_none (db : DB) (tbl : String) (items : List UpdItem)
    (h : ∃ i ∈ items, i.id = none) :
    none ∈ updateMissingIds db tbl items := by
  rcases h with ⟨i, hi, hid⟩
  unfold updateMissingIds
  apply List.mem_filter.mpr
  refine ⟨?_, ?_⟩
  · unfold updateTargetIds
    apply (mem_setDedup _ _).mpr
    exact List.mem_map.mpr ⟨i, hi, hid⟩
  · simp [getItemOpt]

/-- When every item of the batch carries an id, the warn-and-continue skip
branch of the update loop is never taken. -/
theorem updateLoop_no_skip (cols : List String) (items : List UpdItem)
    (h : ∀ i ∈ items, i.id ≠ none) :
    ∀ (db : DB) (acc : List Nat) (awp sk : Bool),
      (updateLoop cols db items acc awp sk).2 = sk := by
  induction items with
  | nil => intro db acc awp sk; rfl
  | cons it rest ih =>
    intro db acc awp sk
    have hrest : ∀ i ∈ rest, i.id ≠ none := fun i hi => h i (List.mem_cons_of_mem it hi)
    simp only [updateLoop]
    rw [prepareUpdateItem_id]
    cases hid : it.id with
    | none => exact absurd hid (h it (List.mem_cons_self it rest))
    | some id =>
      dsimp only
      cases hs : sqlUpdate (readClock db).2 id (prepareUpdateItem cols (readClock db).1 it).fields with
      | error f => rfl
      | ok db2 => exact ih hrest db2 (id :: acc) true sk

/-- C8 counterexample: a two-item batch whose first row lacks an id and whose
second row targets the existing rowid 1.  The claim demands that the first
row be skipped while row 1 is still updated and the call succeeds; instead
the whole call fails pre-validation (`undefined` resolves to nothing) and the
store is untouched — row 1 is never written. -/
theorem C8_counterexample :
    (updateItems dbWithRow "widgets"
      [⟨none, [("name", "x")]⟩, ⟨some 1, [("name", "y")]⟩] true).1.success = false ∧
    (updateItems dbWithRow "widgets"
      [⟨none, [("name", "x")]⟩, ⟨some 1, [("name", "y")]⟩] true).2.1 = dbWithRow := ⟨rfl, rfl⟩

/-- C8 (amended): a batch row lacking an id at runtime makes the whole
`updateMany` call fail pre-validation — the `undefined` id joins the missing
set, the call returns `success=false` with the store untouched and zero
writes — and the in-loop warn-and-skip branch is consequently unreachable: no
call to `updateMany` ever takes it. -/
theorem C8_amended_missing_id_fails_prevalidation (db : DB) (tbl : String)
    (items : List UpdItem) (u : Bool) :
    (updateItems db tbl items u).2.2.skipped = false ∧
    ((∃ i ∈ items, i.id = none) →
      (updateItems db tbl items u).1.success = false ∧
      (updateItems db tbl items u).2.1 = db ∧
      (updateItems db tbl items u).2.2.wrote = false) := by
  constructor
  · by_cases hm : updateMissingIds db tbl items = []
    · have hids : ∀ i ∈ items, i.id ≠ none := by
        intro i hi hnone
        have hmem := updateMissing_of_none db tbl items ⟨i, hi, hnone⟩
        rw [hm] at hmem
        cases hmem
      simp only [updateItems]
      rw [if_neg (by simp [hm])]
      split
      · exact updateLoop_no_skip _ items hids _ [] false false
      · split
        · exact updateLoop_no_skip _ items hids _ [] false false
        · exact updateLoop_no_skip _ items hids _ [] false false
    · rw [updateItems_preval db tbl items u hm]
  · intro hex
    have hne : updateMissingIds db tbl items ≠ [] := by
      intro hempty
      have hmem := updateMissing_of_none db tbl items hex
      rw [hempty] at hmem
      cases hmem
    rw [updateItems_preval db tbl items u hne]
    exact ⟨rfl, rfl, rfl⟩

/-- Witness for C8 (amended): the concrete two-item batch of the
counterexample — the skip branch is not taken and the call fails. -/
theorem C8_witness :
    (updateItems dbWithRow "widgets"
      [⟨none, [("name", "x")]⟩, ⟨some 1, [("name", "y")]⟩] true).2.2.skipped = false ∧
    (updateItems dbWithRow "widgets"
      [⟨none, [("name", "x")]⟩, ⟨some 1, [("name", "y")]⟩] true).1.success = false := by
  have h := C8_amended_missing_id_fails_prevalidation dbWithRow "widgets"
    [⟨none, [("name", "x")]⟩, ⟨some 1, [("name", "y")]⟩] true
  exact ⟨h.1, (h.2 ⟨⟨none, [("name", "x")]⟩, List.mem_cons_self _ _, rfl⟩).1⟩

/-! ### C3 -/

theorem createItems_compensated_iff (db : DB) (tbl : String) (items : List Obj) (u : Bool) :
    (createItems db tbl items u).2.2.compensated = !(createItems db tbl items u).1.success := by
  simp only [createItems]
  split
  · rfl
  · split
    · rfl
    · rfl

theorem updateItems_compensated_iff (db : DB) (tbl : String) (items : List UpdItem) (u : Bool) :
    (updateItems db tbl items u).2.2.compensated =
      (!(updateItems db tbl items u).1.success && (updateItems db tbl items u).2.2.wrote) := by
  simp only [updateItems]
  split
  · rfl
  · split
    · rfl
    · split
      · rfl
      · rfl

theorem deleteItems_compensated_iff (db : DB) (tbl idc : String) (ids : List Nat) (u : Bool) :
    (deleteItems db tbl ids u idc).2.2.compensated =
      (!(deleteItems db tbl ids u idc).1.success && (deleteItems db tbl ids u idc).2.2.wrote) := by
  simp only [deleteItems]
  split
  · rfl
  · split
    · rfl
    · rfl

/-- C3 counterexample: one-row `createMany` against a store whose re-fetch of
the new rowid 1 faults.  The insert succeeds (`wrote = true`), the call fails
with the ReFetchInconsistency message — and compensation IS invoked,
contradicting the claim that a re-fetch failure does not trigger it
(the createItems catch block compensates unconditionally). -/
theorem C3_counterexample :
    (createItems { dbBase with failSelects := [1] } "widgets" [[("name", "a")]] true).1.error
      = some ⟨"No item with id 1 in table \"widgets\"", some "throw stack"⟩ ∧
    (createItems { dbBase with failSelects := [1] } "widgets"
      [[("name", "a")]] true).2.2.wrote = true ∧
    (createItems { dbBase with failSelects := [1] } "widgets"
      [[("name", "a")]] true).2.2.compensated = true := ⟨rfl, rfl, rfl⟩

/-- C3 (amended): compensation (undo replay plus discarding the pending redo
slot) is never invoked on a pre-validation failure; for faults thrown inside
the try block — write-phase faults AND re-fetch faults alike — it is invoked
in `createMany` on every caught fault, and in `updateMany`/`deleteMany`
exactly when the call fails after at least one row was actually written. -/
theorem C3_amended_compensation_scope (db : DB) (tbl idc : String) (citems : List Obj)
    (uitems : List UpdItem) (dids : List Nat) (u1 u2 u3 : Bool) :
    ((createItems db tbl citems u1).2.2.compensated
        = !(createItems db tbl citems u1).1.success) ∧
    ((updateItems db tbl uitems u2).2.2.compensated
        = (!(updateItems db tbl uitems u2).1.success
            && (updateItems db tbl uitems u2).2.2.wrote)) ∧
    ((deleteItems db tbl dids u3 idc).2.2.compensated
        = (!(deleteItems db tbl dids u3 idc).1.success
            && (deleteItems db tbl dids u3 idc).2.2.wrote)) ∧
    (updateMissingIds db tbl uitems ≠ [] →
      (updateItems db tbl uitems u2).2.2.compensated = false) ∧
    (deleteMissingIds db tbl idc dids ≠ [] →
      (deleteItems db tbl dids u3 idc).2.2.compensated = false) := by
  refine ⟨createItems_compensated_iff db tbl citems u1,
    updateItems_compensated_iff db tbl uitems u2,
    deleteItems_compensated_iff db tbl idc dids u3, ?_, ?_⟩
  · intro h
    rw [updateItems_preval db tbl uitems u2 h]
  · intro h
    rw [deleteItems_preval db tbl idc dids u3 h]

/-- Witness for C3 (amended): a re-fetch fault after a successful insert
compensates; a clean one-row update does not; a pre-validation failure does
not. -/
theorem C3_witness :
    (createItems { dbBase with failSelects := [1] } "widgets"
      [[("name", "a")]] true).2.2.compensated = true ∧
    (updateItems dbWithRow "widgets" [⟨some 1, [("name", "q")]⟩] true).2.2.compensated = false ∧
    updateMissingIds dbWithRow "widgets" [⟨some 77, []⟩] ≠ [] ∧
    (updateItems dbWithRow "widgets" [⟨some 77, []⟩] true).2.2.compensated = false := by
  have hc := C3_amended_compensation_scope { dbBase with failSelects := [1] } "widgets" "rowid"
    [[("name", "a")]] [] [] true true true
  have hu := C3_amended_compensation_scope dbWithRow "widgets" "rowid"
    [] [⟨some 1, [("name", "q")]⟩] [] true true true
  have hp := C3_amended_compensation_scope dbWithRow "widgets" "rowid"
    [] [⟨some 77, []⟩] [] true true true
  refine ⟨?_, ?_, by decide, hp.2.2.2.1 (by decide)⟩
  · rw [hc.1]
    decide
  · rw [hu.2.1]
    decide

/-! ### Field and row-lookup lemmas -/

theorem getField_cons (p : String × Val) (fs : Obj) (k : String) :
    getField (p :: fs) k = if p.1 = k then some p.2 else getField fs k := by
  by_cases hp : p.1 = k
  · rw [if_pos hp]
    unfold getField
    rw [List.find?_cons_of_pos _ (by simp [hp])]
  · rw [if_neg hp]
    unfold getField
    rw [List.find?_cons_of_neg _ (by simp [hp])]

theorem getField_set_map (fs : Obj) (k : String) (v : Val)
    (h : fs.any (fun p => p.1 = k) = true) :
    getField (fs.map (fun p => if p.1 = k then (k, v) else p)) k = some v := by
  induction fs with
  | nil => cases h
  | cons p rest ih =>
    simp only [List.map_cons]
    by_cases hp : p.1 = k
    · rw [if_pos hp, getField_cons]
      simp
    · rw [if_neg hp, getField_cons, if_neg hp]
      apply ih
      simp only [List.any_cons, Bool.or_eq_true, decide_eq_true_eq] at h
      rcases h with h | h
      · exact absurd h hp
      · exact h

theorem getField_append_single (fs : Obj) (k : String) (v : Val)
    (h : fs.any (fun p => p.1 = k) = false) :
    getField (fs ++ [(k, v)]) k = some v := by
  induction fs with
  | nil =>
    rw [List.nil_append, getField_cons, if_pos rfl]
  | cons p rest ih =>
    have hp : ¬p.1 = k := by
      intro hk
      rw [List.any_cons] at h
      simp [hk] at h
    have hr : rest.any (fun p => p.1 = k) = false := by
      cases hr2 : rest.any (fun p => p.1 = k)
      · rfl
      · rw [List.any_cons, hr2] at h
        simp at h
    rw [List.cons_append, getField_cons, if_neg hp]
    exact ih hr

theorem getField_setField (fs : Obj) (k : String) (v : Val) :
    getField (setField fs k v) k = some v := by
  unfold setField
  by_cases h : fs.any (fun p => p.1 = k) = true
  · rw [if_pos h]
    exact getField_set_map fs k v h
  · rw [if_neg h]
    apply getField_append_single
    cases hb : fs.any (fun p => p.1 = k)
    · rfl
    · exact absurd hb h

theorem getField_map_set_ne (fs : Obj) (k k' : String) (v : Val) (hne : k' ≠ k) :
    getField (fs.map (fun p => if p.1 = k' then (k', v) else p)) k = getField fs k := by
  induction fs with
  | nil => rfl
  | cons p rest ih =>
    simp only [List.map_cons]
    by_cases hp : p.1 = k'
    · rw [if_pos hp, getField_cons, getField_cons]
      have hpk : ¬p.1 = k := by rw [hp]; exact hne
      rw [if_neg hne, if_neg hpk]
      exact ih
    · rw [if_neg hp, getField_cons, getField_cons]
      by_cases hpk : p.1 = k
      · rw [if_pos hpk, if_pos hpk]
      · rw [if_neg hpk, if_neg hpk]
        exact ih

theorem getField_append_single_ne (fs : Obj) (k k' : String) (v : Val) (hne : k' ≠ k) :
    getField (fs ++ [(k', v)]) k = getField fs k := by
  induction fs with
  | nil =>
    rw [List.nil_append, getField_cons, if_neg hne]
  | cons p rest ih =>
    rw [List.cons_append, getField_cons, getField_cons]
    by_cases hpk : p.1 = k
    · rw [if_pos hpk, if_pos hpk]
    · rw [if_neg hpk, if_neg hpk]
      exact ih

theorem getField_setField_ne (fs : Obj) (k k' : String) (v : Val) (hne : k' ≠ k) :
    getField (setField fs k' v) k = getField fs k := by
  unfold setField
  by_cases h : fs.any (fun p => p.1 = k') = true
  · rw [if_pos h]
    exact getField_map_set_ne fs k k' v hne
  · rw [if_neg h]
    exact getField_append_single_ne fs k k' v hne

theorem findRow_cons (r : Row) (rows : List Row) (id : Nat) :
    findRow (r :: rows) id = if r.rowid = id then some r else findRow rows id := by
  by_cases hp : r.rowid = id
  · rw [if_pos hp]
    unfold findRow
    rw [List.find?_cons_of_pos _ (by simp [hp])]
  · rw [if_neg hp]
    unfold findRow
    rw [List.find?_cons_of_neg _ (by simp [hp])]

theorem findRow_append_of_fresh (rows rest : List Row) (id : Nat)
    (h : ∀ q ∈ rows, q.rowid ≠ id) :
    findRow (rows ++ rest) id = findRow rest id := by
  induction rows with
  | nil => rfl
  | cons r rs ih =>
    rw [List.cons_append, findRow_cons, if_neg (h r (List.mem_cons_self r rs))]
    exact ih (fun q hq => h q (List.mem_cons_of_mem r hq))

/-- The created/updated timestamp fields that `createItems` stamps on a
prepared item (lines 226-229). -/
theorem prepareCreateItem_created_at (cols : List String) (ts : Val) (item : Obj)
    (hc : "created_at" ∈ cols) :
    getField (prepareCreateItem cols ts item) "created_at" = some ts := by
  simp only [prepareCreateItem]
  rw [if_pos hc]
  by_cases hu : "updated_at" ∈ cols
  · rw [if_pos hu, getField_setField_ne _ _ _ _ (by decide), getField_setField]
  · rw [if_neg hu, getField_setField]

/-! ### Closed form of the insert loop -/

/-- The rows a fault-free create loop inserts: one per item, consecutive
store-assigned rowids, one clock reading per iteration. -/
def insertedRows (cols : List String) (clock : List Nat) : Nat → Nat → List Obj → List Row
  | _, _, [] => []
  | cIdx, rid, it :: rest =>
    ⟨rid, prepareCreateItem cols (toString (clock.getD cIdx 0)) it⟩ ::
      insertedRows cols clock (cIdx + 1) (rid + 1) rest

theorem insertedRows_length (cols : List String) (clock : List Nat) :
    ∀ (c rid : Nat) (its : List Obj),
      (insertedRows cols clock c rid its).length = its.length := by
  intro c rid its
  induction its generalizing c rid with
  | nil => rfl
  | cons it rest ih => simp [insertedRows, ih]

theorem insertedRows_rowid_lb (cols : List String) (clock : List Nat) :
    ∀ (c rid : Nat) (its : List Obj) (q : Row),
      q ∈ insertedRows cols clock c rid its → rid ≤ q.rowid := by
  intro c rid its
  induction its generalizing c rid with
  | nil => intro q hq; cases hq
  | cons it rest ih =>
    intro q hq
    rcases List.mem_cons.mp hq with rfl | hq'
    · exact le_refl _
    · exact le_trans (Nat.le_succ rid) (ih (c + 1) (rid + 1) q hq')

theorem insertedRows_find (cols : List String) (clock : List Nat) :
    ∀ (c rid : Nat) (its : List Obj) (q : Row),
      q ∈ insertedRows cols clock c rid its →
      findRow (insertedRows cols clock c rid its) q.rowid = some q := by
  intro c rid its
  induction its generalizing c rid with
  | nil => intro q hq; cases hq
  | cons it rest ih =>
    intro q hq
    rcases List.mem_cons.mp hq with rfl | hq'
    · simp [insertedRows, findRow_cons]
    · have hlb := insertedRows_rowid_lb cols clock (c + 1) (rid + 1) rest q hq'
      have hne : rid ≠ q.rowid := by omega
      simp only [insertedRows, findRow_cons]
      rw [if_neg hne]
      exact ih (c + 1) (rid + 1) q hq'

/-- Closed form of the create loop when no write faults: the final state, the
collected ids and `actionWasPerformed` in one equation. -/
theorem createLoop_spec (cols : List String) (items : List Obj) :
    ∀ (db : DB) (acc : List Nat) (awp : Bool), db.failWrites = [] →
      createLoop cols db items acc awp =
        ⟨{ db with
            rows := db.rows ++ insertedRows cols db.clockStream db.clockIdx db.nextRowId items
            nextRowId := db.nextRowId + items.length
            writeIdx := db.writeIdx + items.length
            clockIdx := db.clockIdx + items.length
            history := db.history ++
              (insertedRows cols db.clockStream db.clockIdx db.nextRowId items).map
                (fun r => ⟨db.currentGroup, .ins r.rowid⟩) },
          .ok (acc.reverse ++
            (insertedRows cols db.clockStream db.clockIdx db.nextRowId items).map
              (fun r => r.rowid)),
          awp || !items.isEmpty⟩ := by
  induction items with
  | nil =>
    intro db acc awp hW
    simp [createLoop, insertedRows]
  | cons it rest ih =>
    intro db acc awp hW
    simp only [createLoop]
    have hins : sqlInsert (readClock db).2 (prepareCreateItem cols (readClock db).1 it) =
        .ok (db.nextRowId,
          { db with
            clockIdx := db.clockIdx + 1
            rows := db.rows ++ [⟨db.nextRowId, prepareCreateItem cols (readClock db).1 it⟩]
            nextRowId := db.nextRowId + 1
            writeIdx := db.writeIdx + 1
            history := db.history ++ [⟨db.currentGroup, .ins db.nextRowId⟩] }) := by
      unfold sqlInsert
      rw [if_neg (by simp [readClock, hW])]
      simp [readClock]
    rw [hins]
    dsimp only
    rw [ih _ (db.nextRowId :: acc) true (by simp [hW])]
    simp only [TryRes.mk.injEq, DB.mk.injEq, insertedRows, readClock, List.map_cons,
      List.reverse_cons, List.append_assoc, List.singleton_append, List.cons_append,
      List.length_cons, List.isEmpty_cons, Bool.not_false, Bool.or_true, Bool.true_or]
    refine ⟨⟨?_, ?_, ?_, ?_, ?_, ?_, ?_, ?_, ?_, ?_, ?_, ?_⟩, ?_, ?_⟩ <;>
      first
      | trivial
      | omega

/-! ### Re-fetch success -/

theorem getItem_of_found (db : DB) (tbl idc : String) (id : Nat) (r : Row)
    (hS : db.failSelects = []) (h : findRow db.rows id = some r) :
    getItem db tbl idc id = ⟨true, none, some r⟩ := by
  unfold getItem sqlSelect
  rw [hS, if_neg (List.not_mem_nil id), h]

theorem createRefetch_ok (tbl : String) (db : DB) (hS : db.failSelects = []) :
    ∀ (ids : List Nat) (acc : List Row) (f : Nat → Row),
      (∀ id ∈ ids, findRow db.rows id = some (f id)) →
      createRefetch tbl db ids acc = .ok (acc.reverse ++ ids.map f) := by
  intro ids
  induction ids with
  | nil => intro acc f h; simp [createRefetch]
  | cons id rest ih =>
    intro acc f h
    simp only [createRefetch]
    rw [getItem_of_found db tbl "rowid" id (f id) hS (h id (List.mem_cons_self id rest))]
    dsimp only
    rw [ih (f id :: acc) f (fun i hi => h i (List.mem_cons_of_mem id hi))]
    simp [List.reverse_cons, List.append_assoc]

theorem createRefetch_of_present (tbl : String) (db : DB) (hS : db.failSelects = [])
    (rows : List Row) (acc : List Row)
    (h : ∀ r ∈ rows, findRow db.rows r.rowid = some r) :
    createRefetch tbl db (rows.map (fun r => r.rowid)) acc = .ok (acc.reverse ++ rows) := by
  have hf : ∀ id ∈ rows.map (fun r => r.rowid),
      findRow db.rows id = some ((findRow db.rows id).getD ⟨0, []⟩) := by
    intro id hid
    rcases List.mem_map.mp hid with ⟨r, hr, rfl⟩
    rw [h r hr]
    rfl
  rw [createRefetch_ok tbl db hS _ acc _ hf]
  congr 1
  rw [List.map_map]
  have hcong : ∀ r ∈ rows,
      ((fun id => (findRow db.rows id).getD ⟨0, []⟩) ∘ (fun r => r.rowid)) r = r := by
    intro r hr
    simp [h r hr]
  rw [List.map_congr_left hcong]
  simp

/-- Every inserted row can be re-read from the combined table when all
pre-existing rowids are below the insertion point. -/
theorem inserted_present (cols : List String) (clock : List Nat) (old : List Row)
    (c rid : Nat) (its : List Obj) (hold : ∀ q ∈ old, q.rowid < rid) :
    ∀ r ∈ insertedRows cols clock c rid its,
      findRow (old ++ insertedRows cols clock c rid its) r.rowid = some r := by
  intro r hr
  have hlb := insertedRows_rowid_lb cols clock c rid its r hr
  rw [findRow_append_of_fresh]
  · exact insertedRows_find cols clock c rid its r hr
  · intro q hq
    have := hold q hq
    omega

/-! ### Closed-form success behavior of createItems -/

/-- The rows a fault-free `createItems` call materializes for its batch. -/
abbrev createdRows (db : DB) (items : List Obj) : List Row :=
  insertedRows db.columns db.clockStream db.clockIdx db.nextRowId items

/-- `createItems` with `useNextUndoGroup = true` on a fault-free store:
closed form of the response, the final state and the trace.  The batch's
history records carry group `db.currentGroup + 1` and the counter ends two
ahead. -/
theorem createItems_ok_true (db : DB) (tbl : String) (items : List Obj)
    (hW : db.failWrites = []) (hS : db.failSelects = [])
    (hF : ∀ q ∈ db.rows, q.rowid < db.nextRowId) :
    createItems db tbl items true =
      (⟨true, none, createdRows db items⟩,
       { db with
          rows := db.rows ++ createdRows db items
          nextRowId := db.nextRowId + items.length
          writeIdx := db.writeIdx + items.length
          clockIdx := db.clockIdx + items.length
          currentGroup := db.currentGroup + 2
          history := db.history ++ (createdRows db items).map
            (fun r => ⟨db.currentGroup + 1, .ins r.rowid⟩) },
       ⟨false, !items.isEmpty, false, false, true, false⟩) := by
  simp only [createItems, getCurrentUndoGroup, incrementUndoGroup]
  rw [createLoop_spec db.columns items { db with currentGroup := db.currentGroup + 1 } [] false hW]
  dsimp only
  simp only [List.reverse_nil, List.nil_append]
  rw [createRefetch_of_present tbl
    { db with
        rows := db.rows ++ createdRows db items
        nextRowId := db.nextRowId + items.length
        writeIdx := db.writeIdx + items.length
        clockIdx := db.clockIdx + items.length
        currentGroup := db.currentGroup + 1
        history := db.history ++ (createdRows db items).map
          (fun r => ⟨db.currentGroup + 1, .ins r.rowid⟩) }
    hS (createdRows db items) []
    (inserted_present db.columns db.clockStream db.rows db.clockIdx db.nextRowId items hF)]
  dsimp only
  simp only [List.reverse_nil, List.nil_append]
  simp only [Bool.not_true, Bool.false_and, if_bool_false]
  rfl

/-- `createItems` with `useNextUndoGroup = false` on a fault-free store and a
nonempty batch: the group it opened is folded down by
`decrementLastUndoGroup` and no finalizer increment happens. -/
theorem createItems_ok_false (db : DB) (tbl : String) (items : List Obj)
    (hW : db.failWrites = []) (hS : db.failSelects = [])
    (hF : ∀ q ∈ db.rows, q.rowid < db.nextRowId) (hne : items ≠ []) :
    createItems db tbl items false =
      (⟨true, none, createdRows db items⟩,
       decrementLastUndoGroup
        { db with
          rows := db.rows ++ createdRows db items
          nextRowId := db.nextRowId + items.length
          writeIdx := db.writeIdx + items.length
          clockIdx := db.clockIdx + items.length
          currentGroup := db.currentGroup + 1
          history := db.history ++ (createdRows db items).map
            (fun r => ⟨db.currentGroup + 1, .ins r.rowid⟩) },
       ⟨false, true, true, false, false, false⟩) := by
  simp only [createItems, getCurrentUndoGroup, incrementUndoGroup]
  rw [createLoop_spec db.columns items { db with currentGroup := db.currentGroup + 1 } [] false hW]
  dsimp only
  simp only [List.reverse_nil, List.nil_append]
  rw [createRefetch_of_present tbl
    { db with
        rows := db.rows ++ createdRows db items
        nextRowId := db.nextRowId + items.length
        writeIdx := db.writeIdx + items.length
        clockIdx := db.clockIdx + items.length
        currentGroup := db.currentGroup + 1
        history := db.history ++ (createdRows db items).map
          (fun r => ⟨db.currentGroup + 1, .ins r.rowid⟩) }
    hS (createdRows db items) []
    (inserted_present db.columns db.clockStream db.rows db.clockIdx db.nextRowId items hF)]
  dsimp only
  simp only [List.reverse_nil, List.nil_append]
  have hie : items.isEmpty = false := by
    cases items with
    | nil => exact absurd rfl hne
    | cons a as => rfl
  have hg : decide (db.currentGroup ≠ db.currentGroup + 1) = true := decide_eq_true (by omega)
  simp only [hie, hg, Bool.not_false, Bool.not_true, Bool.true_and, Bool.and_true,
    Bool.or_false, Bool.false_or, Bool.and_self]
  rfl

/-! ### C4 -/

/-- C4 counterexample: a two-item `createMany` against the base store — which
declares `created_at` and `updated_at` — succeeds with distinct ids 1 and 2,
but the two rows' `created_at` values are the DIFFERENT consecutive clock
readings "10" and "20": the source calls `new Date().toISOString()` once per
item inside the loop (line 226), not once per batch, so the claimed identical
timestamps fail whenever the clock advances between iterations. -/
theorem C4_counterexample :
    "created_at" ∈ dbBase.columns ∧ "updated_at" ∈ dbBase.columns ∧
    (createItems dbBase "widgets" [[("name", "a")], [("name", "b")]] true).1.success = true ∧
    ((createItems dbBase "widgets" [[("name", "a")], [("name", "b")]] true).1.data.map
      (fun r => r.rowid)) = [1, 2] ∧
    ((createItems dbBase "widgets" [[("name", "a")], [("name", "b")]] true).1.data.map
      (fun r => getField r.fields "created_at")) = [some "10", some "20"] ∧
    (some "10" : Option Val) ≠ some "20" :=
  ⟨by decide, by decide, rfl, rfl, rfl, by decide⟩

/-- C4 (amended): on a fault-free store whose table declares `created_at`,
a two-item `createMany` returns `success=true` with two rows carrying
distinct, consecutive store-assigned ids; each row's `created_at` equals the
wall-clock reading taken during its own loop iteration, so the two values are
identical exactly when the clock readings at the two iterations coincide. -/
theorem C4_amended_two_item_create (db : DB) (tbl : String) (i1 i2 : Obj)
    (hW : db.failWrites = []) (hS : db.failSelects = [])
    (hF : ∀ q ∈ db.rows, q.rowid < db.nextRowId) (hc : "created_at" ∈ db.columns) :
    (createItems db tbl [i1, i2] true).1.success = true ∧
    (createItems db tbl [i1, i2] true).1.data =
      [⟨db.nextRowId,
        prepareCreateItem db.columns (toString (db.clockStream.getD db.clockIdx 0)) i1⟩,
       ⟨db.nextRowId + 1,
        prepareCreateItem db.columns (toString (db.clockStream.getD (db.clockIdx + 1) 0)) i2⟩] ∧
    db.nextRowId ≠ db.nextRowId + 1 ∧
    ((createItems db tbl [i1, i2] true).1.data.map (fun r => getField r.fields "created_at"))
      = [some (toString (db.clockStream.getD db.clockIdx 0)),
         some (toString (db.clockStream.getD (db.clockIdx + 1) 0))] ∧
    (db.clockStream.getD db.clockIdx 0 = db.clockStream.getD (db.clockIdx + 1) 0 →
      ((createItems db tbl [i1, i2] true).1.data.map
        (fun r => getField r.fields "created_at"))
        = [some (toString (db.clockStream.getD db.clockIdx 0)),
           some (toString (db.clockStream.getD db.clockIdx 0))]) := by
  have h1 := prepareCreateItem_created_at db.columns
    (toString (db.clockStream.getD db.clockIdx 0)) i1 hc
  have h2 := prepareCreateItem_created_at db.columns
    (toString (db.clockStream.getD (db.clockIdx + 1) 0)) i2 hc
  rw [createItems_ok_true db tbl [i1, i2] hW hS hF]
  dsimp only
  refine ⟨rfl, ?_, by omega, ?_, ?_⟩
  · simp [insertedRows]
  · simp only [insertedRows, List.map_cons, List.map_nil]
    rw [h1, h2]
  · intro h
    simp only [insertedRows, List.map_cons, List.map_nil]
    rw [h1, h2, h]

/-- A base store whose clock does not advance between the two reads. -/
def dbTick : DB := { dbBase with clockStream := [7, 7, 7, 7] }

/-- Witness for C4 (amended): with a constant clock the two rows get ids 1
and 2 and the identical `created_at` "7". -/
theorem C4_witness :
    (createItems dbTick "widgets" [[("name", "a")], [("name", "b")]] true).1.success = true ∧
    ((createItems dbTick "widgets" [[("name", "a")], [("name", "b")]] true).1.data.map
      (fun r => r.rowid)) = [1, 2] ∧
    ((createItems dbTick "widgets" [[("name", "a")], [("name", "b")]] true).1.data.map
      (fun r => getField r.fields "created_at")) = [some "7", some "7"] := by
  have h := C4_amended_two_item_create dbTick "widgets" [("name", "a")] [("name", "b")]
    (by decide) (by decide) (by decide) (by decide)
  refine ⟨h.1, ?_, ?_⟩
  · rw [h.2.1]
    decide
  · rw [h.2.2.2.2 (by decide)]
    decide

/-! ### C2 -/

theorem insertedRows_rowid_ub (cols : List String) (clock : List Nat) :
    ∀ (c rid : Nat) (its : List Obj) (q : Row),
      q ∈ insertedRows cols clock c rid its → q.rowid < rid + its.length := by
  intro c rid its
  induction its generalizing c rid with
  | nil => intro q hq; cases hq
  | cons it rest ih =>
    intro q hq
    rcases List.mem_cons.mp hq with rfl | hq'
    · simp
    · have := ih (c + 1) (rid + 1) q hq'
      simp only [List.length_cons]
      omega

theorem insertedRows_ne_nil (cols : List String) (clock : List Nat)
    (c rid : Nat) (its : List Obj) (h : its ≠ []) :
    insertedRows cols clock c rid its ≠ [] := by
  intro hnil
  have := insertedRows_length cols clock c rid its
  rw [hnil] at this
  cases its with
  | nil => exact h rfl
  | cons a as => cases this

/-- History shape after two back-to-back batches followed by a merge-down:
the maximum group (the second batch, at some `g2` strictly above `g0 + 1`) is
re-tagged to the first batch's group `g0 + 1`, and nothing else is touched. -/
theorem decrement_two_batches (S : DB) (old r1 r2 : List HistRec) (g0 g2 : Nat)
    (hgt : g0 + 1 < g2)
    (hh : S.history = old ++ r1 ++ r2)
    (hold : ∀ r ∈ old, r.group ≤ g0)
    (h1 : ∀ r ∈ r1, r.group = g0 + 1)
    (h2 : ∀ r ∈ r2, r.group = g2)
    (hne1 : r1 ≠ []) (hne2 : r2 ≠ []) :
    decrementLastUndoGroup S =
      { S with history := old ++ r1 ++ r2.map (fun r => ⟨g0 + 1, r.change⟩) } := by
  have hmem2 : g2 ∈ S.history.map (fun r => r.group) := by
    rcases List.exists_mem_of_ne_nil r2 hne2 with ⟨r, hr⟩
    apply List.mem_map.mpr
    refine ⟨r, ?_, h2 r hr⟩
    rw [hh]
    exact List.mem_append_right _ hr
  have hmem1 : (g0 + 1) ∈ S.history.map (fun r => r.group) := by
    rcases List.exists_mem_of_ne_nil r1 hne1 with ⟨r, hr⟩
    apply List.mem_map.mpr
    refine ⟨r, ?_, h1 r hr⟩
    rw [hh]
    exact List.mem_append_left _ (List.mem_append_right _ hr)
  have hbound : ∀ x ∈ S.history.map (fun r => r.group), x ≤ g2 := by
    intro x hx
    rcases List.mem_map.mp hx with ⟨r, hr, rfl⟩
    rw [hh] at hr
    rcases List.mem_append.mp hr with hr | hr
    · rcases List.mem_append.mp hr with hr | hr
      · have := hold r hr
        omega
      · have := h1 r hr
        omega
    · have := h2 r hr
      omega
  have hm : listMax? (S.history.map (fun r => r.group)) = some g2 :=
    listMax?_eq_some _ _ hmem2 hbound
  have hp : listMax? ((S.history.map (fun r => r.group)).filter (fun g => g < g2))
      = some (g0 + 1) := by
    apply listMax?_eq_some
    · exact List.mem_filter.mpr ⟨hmem1, decide_eq_true hgt⟩
    · intro x hx
      rcases List.mem_filter.mp hx with ⟨hx1, hx2⟩
      rcases List.mem_map.mp hx1 with ⟨r, hr, rfl⟩
      rw [hh] at hr
      rcases List.mem_append.mp hr with hr | hr
      · rcases List.mem_append.mp hr with hr | hr
        · have := hold r hr
          omega
        · have := h1 r hr
          omega
      · have := h2 r hr
        simp only [decide_eq_true_eq] at hx2
        omega
  have hstep := (decrementLastUndoGroup_behavior S).1 g2 (g0 + 1) hm hp (by omega)
  rw [hstep]
  have hmapped : S.history.map
      (fun r => if r.group = g2 then (⟨g0 + 1, r.change⟩ : HistRec) else r)
      = old ++ r1 ++ r2.map (fun r => ⟨g0 + 1, r.change⟩) := by
    rw [hh, List.map_append, List.map_append]
    have ho : old.map
        (fun r => if r.group = g2 then (⟨g0 + 1, r.change⟩ : HistRec) else r) = old := by
      have hc : ∀ r ∈ old,
          (if r.group = g2 then (⟨g0 + 1, r.change⟩ : HistRec) else r) = id r := by
        intro r hr
        have := hold r hr
        rw [if_neg (by omega)]
        rfl
      rw [List.map_congr_left hc, List.map_id]
    have hr1 : r1.map
        (fun r => if r.group = g2 then (⟨g0 + 1, r.change⟩ : HistRec) else r) = r1 := by
      have hc : ∀ r ∈ r1,
          (if r.group = g2 then (⟨g0 + 1, r.change⟩ : HistRec) else r) = id r := by
        intro r hr
        have := h1 r hr
        rw [if_neg (by omega)]
        rfl
      rw [List.map_congr_left hc, List.map_id]
    have hr2 : r2.map
        (fun r => if r.group = g2 then (⟨g0 + 1, r.change⟩ : HistRec) else r)
        = r2.map (fun r => ⟨g0 + 1, r.change⟩) := by
      apply List.map_congr_left
      intro r hr
      rw [if_pos (h2 r hr)]
    rw [ho, hr1, hr2]
  rw [hmapped]

/-! ### Fold behavior of the update and delete pipelines -/

theorem findRow_append_left (rows rest : List Row) (id : Nat) (r : Row)
    (h : findRow rows id = some r) : findRow (rows ++ rest) id = some r := by
  induction rows with
  | nil => cases h
  | cons q qs ih =>
    rw [List.cons_append, findRow_cons]
    rw [findRow_cons] at h
    by_cases hq : q.rowid = id
    · rw [if_pos hq] at h ⊢
      exact h
    · rw [if_neg hq] at h ⊢
      exact ih h

theorem findRow_map_isSome (rows : List Row) (f : Row → Row)
    (hf : ∀ q, (f q).rowid = q.rowid) (id : Nat) :
    (findRow (rows.map f) id).isSome = (findRow rows id).isSome := by
  induction rows with
  | nil => rfl
  | cons q qs ih =>
    rw [List.map_cons, findRow_cons, findRow_cons, hf q]
    by_cases hq : q.rowid = id
    · rw [if_pos hq, if_pos hq]
      rfl
    · rw [if_neg hq, if_neg hq]
      exact ih

theorem getItem_data_some_found (db : DB) (tbl idc : String) (id : Nat) (r : Row)
    (h : (getItem db tbl idc id).data = some r) : findRow db.rows id = some r := by
  unfold getItem at h
  cases hsel : sqlSelect db id with
  | error e => rw [hsel] at h; cases h
  | ok o =>
    cases o with
    | none => rw [hsel] at h; cases h
    | some q =>
      rw [hsel] at h
      dsimp only at h
      unfold sqlSelect at hsel
      by_cases hf : id ∈ db.failSelects
      · rw [if_pos hf] at hsel
        cases hsel
      · rw [if_neg hf] at hsel
        injection hsel with hsel2
        rw [hsel2]
        exact h

theorem setDedup_ne_nil {α : Type} [DecidableEq α] (l : List α) (h : l ≠ []) :
    setDedup l ≠ [] := by
  cases l with
  | nil => exact absurd rfl h
  | cons a as => simp [setDedup]

/-- The first entry of the pre-validation snapshot map (built by `filterMap`
over the deduplicated id list) with a given key is that key's snapshot. -/
theorem find_in_filterMap (uids : List Nat) (g : Nat → Option Row) (id : Nat) (r : Row)
    (hid : id ∈ uids) (hr : g id = some r) :
    (uids.filterMap (fun i => (g i).map (fun q => (i, q)))).find?
      (fun p => p.1 = id) = some (id, r) := by
  induction uids with
  | nil => cases hid
  | cons u us ih =>
    rw [List.filterMap_cons]
    by_cases hui : u = id
    · subst hui
      rw [hr]
      simp only [Option.map_some']
      rw [List.find?_cons_of_pos _ (by simp)]
    · have hid' : id ∈ us := by
        rcases List.mem_cons.mp hid with h | h
        · exact absurd h.symm hui
        · exact h
      cases hgu : g u with
      | none =>
        simp only [Option.map_none']
        exact ih hid'
      | some q =>
        simp only [Option.map_some']
        rw [List.find?_cons_of_neg _ (by simp [hui])]
        exact ih hid'

/-- Fold behavior of the update loop on a write-fault-free store: it succeeds,
appends one history record per item whose target row is present — each tagged
with the entry group — preserves the row-id census and the select-fault
schedule, and reports `actionWasPerformed` exactly when some item carried an
id. -/
theorem updateLoop_fold (cols : List String) (items : List UpdItem) :
    ∀ (db : DB) (acc : List Nat) (awp sk : Bool), db.failWrites = [] →
      ∃ (ids : List Nat) (recs : List HistRec),
        (updateLoop cols db items acc awp sk).1.res = .ok (acc.reverse ++ ids) ∧
        (updateLoop cols db items acc awp sk).1.awp
          = (awp || items.any (fun i => i.id.isSome)) ∧
        (updateLoop cols db items acc awp sk).1.db.history = db.history ++ recs ∧
        (∀ r ∈ recs, r.group = db.currentGroup) ∧
        (∀ i, (findRow (updateLoop cols db items acc awp sk).1.db.rows i).isSome
            = (findRow db.rows i).isSome) ∧
        (updateLoop cols db items acc awp sk).1.db.failSelects = db.failSelects ∧
        (∀ id ∈ ids, ∃ it ∈ items, it.id = some id) ∧
        ((∀ it ∈ items, ∀ id, it.id = some id → (findRow db.rows id).isSome = true) →
          items.any (fun i => i.id.isSome) = true → recs ≠ []) := by
  induction items with
  | nil =>
    intro db acc awp sk hW
    refine ⟨[], [], by simp [updateLoop], by simp [updateLoop], by simp [updateLoop],
      ?_, fun i => rfl, rfl, ?_, by simp⟩
    · intro r hr
      cases hr
    · intro id hid
      cases hid
  | cons it rest ih =>
    intro db acc awp sk hW
    simp only [updateLoop]
    rw [prepareUpdateItem_id]
    cases hid : it.id with
    | none =>
      dsimp only
      obtain ⟨ids, recs, k1, k2, k3, k4, k5, k6, k7, k8⟩ :=
        ih (readClock db).2 acc awp true hW
      refine ⟨ids, recs, k1, ?_, k3, k4, k5, k6, ?_, ?_⟩
      · rw [k2]
        simp [hid]
      · intro id2 hid2
        rcases k7 id2 hid2 with ⟨i2, hi2, hi2id⟩
        exact ⟨i2, List.mem_cons_of_mem it hi2, hi2id⟩
      · intro hpres hany
        refine k8 (fun i2 hi2 id2 hid2 => hpres i2 (List.mem_cons_of_mem it hi2) id2 hid2) ?_
        simpa [hid] using hany
    | some id =>
      dsimp only
      cases hrow : findRow db.rows id with
      | none =>
        have hupd : sqlUpdate (readClock db).2 id
            (prepareUpdateItem cols (readClock db).1 it).fields =
            .ok { (readClock db).2 with writeIdx := (readClock db).2.writeIdx + 1 } := by
          unfold sqlUpdate
          rw [if_neg (by simp [readClock, hW]),
            show findRow (readClock db).2.rows id = none from hrow]
        rw [hupd]
        dsimp only
        obtain ⟨ids, recs, k1, k2, k3, k4, k5, k6, k7, k8⟩ :=
          ih { (readClock db).2 with writeIdx := (readClock db).2.writeIdx + 1 }
            (id :: acc) true sk hW
        refine ⟨id :: ids, recs, ?_, ?_, k3, k4, k5, k6, ?_, ?_⟩
        · rw [k1]
          simp
        · rw [k2]
          simp [hid]
        · intro id2 hid2
          rcases List.mem_cons.mp hid2 with rfl | hid2'
          · exact ⟨it, List.mem_cons_self it rest, hid⟩
          · rcases k7 id2 hid2' with ⟨i2, hi2, hi2id⟩
            exact ⟨i2, List.mem_cons_of_mem it hi2, hi2id⟩
        · intro hpres _
          have hps := hpres it (List.mem_cons_self it rest) id hid
          rw [hrow] at hps
          simp at hps
      | some r =>
        have hupd : sqlUpdate (readClock db).2 id
            (prepareUpdateItem cols (readClock db).1 it).fields =
            .ok { (readClock db).2 with
                    rows := (readClock db).2.rows.map (fun q =>
                      if q.rowid = id then
                        ⟨q.rowid,
                          ((prepareUpdateItem cols (readClock db).1 it).fields).foldl
                            (fun fs p => setField fs p.1 p.2) q.fields⟩
                      else q)
                    writeIdx := (readClock db).2.writeIdx + 1
                    history := (readClock db).2.history ++
                      [⟨(readClock db).2.currentGroup, .upd id r.fields⟩] } := by
          unfold sqlUpdate
          rw [if_neg (by simp [readClock, hW]),
            show findRow (readClock db).2.rows id = some r from hrow]
        rw [hupd]
        dsimp only
        obtain ⟨ids, recs, k1, k2, k3, k4, k5, k6, k7, k8⟩ :=
          ih { (readClock db).2 with
                rows := (readClock db).2.rows.map (fun q =>
                  if q.rowid = id then
                    ⟨q.rowid,
                      ((prepareUpdateItem cols (readClock db).1 it).fields).foldl
                        (fun fs p => setField fs p.1 p.2) q.fields⟩
                  else q)
                writeIdx := (readClock db).2.writeIdx + 1
                history := (readClock db).2.history ++
                  [⟨(readClock db).2.currentGroup, .upd id r.fields⟩] }
            (id :: acc) true sk hW
        refine ⟨id :: ids, ⟨db.currentGroup, .upd id r.fields⟩ :: recs, ?_, ?_, ?_, ?_,
          ?_, k6, ?_, ?_⟩
        · rw [k1]
          simp
        · rw [k2]
          simp [hid]
        · rw [k3]
          show (db.history ++ [⟨db.currentGroup, ChangeKind.upd id r.fields⟩]) ++ recs = _
          rw [List.append_assoc]
          rfl
        · intro r2 hr2
          rcases List.mem_cons.mp hr2 with rfl | hr2'
          · rfl
          · exact k4 r2 hr2'
        · intro i
          rw [k5 i]
          exact findRow_map_isSome db.rows _
            (fun q => by
              by_cases hq : q.rowid = id
              · rw [if_pos hq]
              · rw [if_neg hq]) i
        · intro id2 hid2
          rcases List.mem_cons.mp hid2 with rfl | hid2'
          · exact ⟨it, List.mem_cons_self it rest, hid⟩
          · rcases k7 id2 hid2' with ⟨i2, hi2, hi2id⟩
            exact ⟨i2, List.mem_cons_of_mem it hi2, hi2id⟩
        · intro _ _
          exact List.cons_ne_nil _ _

/-- The re-fetch loop of `updateItems` succeeds whenever every collected id
resolves against the post-loop table and no select fault is scheduled. -/
theorem updateRefetch_ok (tbl : String) (db : DB) (hS : db.failSelects = []) :
    ∀ (ids : List Nat) (acc : List Row),
      (∀ id ∈ ids, (findRow db.rows id).isSome = true) →
      ∃ rows, updateRefetch tbl db ids acc = .ok rows := by
  intro ids
  induction ids with
  | nil =>
    intro acc _
    exact ⟨acc.reverse, rfl⟩
  | cons id rest ih =>
    intro acc h
    rcases Option.isSome_iff_exists.mp (h id (List.mem_cons_self id rest)) with ⟨r, hr⟩
    simp only [updateRefetch]
    rw [getItem_of_found db tbl "rowid" id r hS hr]
    dsimp only
    exact ih (r :: acc) (fun i hi => h i (List.mem_cons_of_mem id hi))

/-- `updateItems` with `useNextUndoGroup = false` on a write/select-fault-free
store, a batch that passes pre-validation against present rows, and at least
one id-carrying item: the call succeeds, the merge step runs (`merged =
true`), and the state handed back is `decrementLastUndoGroup` of a state
whose history extends the caller's by this batch's records, every one tagged
with the group this call opened (`db.currentGroup + 1`). -/
theorem updateItems_false_merge (db : DB) (tbl : String) (items : List UpdItem)
    (hW : db.failWrites = []) (hS : db.failSelects = [])
    (hpre : updateMissingIds db tbl items = [])
    (hpres : ∀ it ∈ items, ∀ id, it.id = some id → (findRow db.rows id).isSome = true)
    (hsome : items.any (fun i => i.id.isSome) = true) :
    ∃ (S : DB) (recs : List HistRec),
      recs ≠ [] ∧
      (∀ r ∈ recs, r.group = db.currentGroup + 1) ∧
      S.history = db.history ++ recs ∧
      (updateItems db tbl items false).2.2.merged = true ∧
      (updateItems db tbl items false).1.success = true ∧
      (updateItems db tbl items false).2.1 = decrementLastUndoGroup S := by
  simp only [updateItems, getCurrentUndoGroup, incrementUndoGroup]
  rw [if_neg (by simp [hpre])]
  obtain ⟨ids, recs, k1, k2, k3, k4, k5, k6, k7, k8⟩ :=
    updateLoop_fold db.columns items { db with currentGroup := db.currentGroup + 1 }
      [] false false hW
  rw [k1]
  dsimp only
  simp only [List.reverse_nil, List.nil_append]
  have hfS : (updateLoop db.columns { db with currentGroup := db.currentGroup + 1 }
      items [] false false).1.db.failSelects = [] := k6.trans hS
  have hpresT : ∀ id ∈ ids,
      (findRow (updateLoop db.columns { db with currentGroup := db.currentGroup + 1 }
        items [] false false).1.db.rows id).isSome = true := by
    intro i hi
    rcases k7 i hi with ⟨it, hit, hitid⟩
    exact (k5 i).trans (hpres it hit i hitid)
  obtain ⟨rows', hrf⟩ := updateRefetch_ok tbl
    (updateLoop db.columns { db with currentGroup := db.currentGroup + 1 }
      items [] false false).1.db hfS ids [] hpresT
  rw [hrf]
  dsimp only
  have hawp : (updateLoop db.columns { db with currentGroup := db.currentGroup + 1 }
      items [] false false).1.awp = true := by
    rw [k2]
    simp [hsome]
  have hg : decide (db.currentGroup ≠ db.currentGroup + 1) = true :=
    decide_eq_true (by omega)
  simp only [hawp, hg, Bool.not_false, Bool.true_and, Bool.and_true, if_bool_true,
    if_bool_false, if_prop_true]
  exact ⟨_, recs, k8 hpres hsome, k4, k3, trivial, trivial, rfl⟩

/-- Fold behavior of the delete loop on a write-fault-free store when every
id has a snapshot in the validation map: it succeeds, appends one history
record per present target — each tagged with the entry group — and reports
`actionWasPerformed` exactly when the id list is nonempty. -/
theorem deleteLoop_fold (idc : String) (itemsMap : List (Nat × Row)) (ids : List Nat) :
    ∀ (db : DB) (acc : List Row) (awp : Bool),
      db.failWrites = [] →
      (∀ id ∈ ids, ∃ p, itemsMap.find? (fun q => q.1 = id) = some p) →
      ∃ (objs : List Row) (recs : List HistRec),
        (deleteLoop idc itemsMap db ids acc awp).res = .ok (acc.reverse ++ objs) ∧
        (deleteLoop idc itemsMap db ids acc awp).awp = (awp || !ids.isEmpty) ∧
        (deleteLoop idc itemsMap db ids acc awp).db.history = db.history ++ recs ∧
        (∀ r ∈ recs, r.group = db.currentGroup) ∧
        ((∀ id ∈ ids, (findRow db.rows id).isSome = true) → ids ≠ [] → recs ≠ []) := by
  induction ids with
  | nil =>
    intro db acc awp hW hmap
    refine ⟨[], [], by simp [deleteLoop], by simp [deleteLoop], by simp [deleteLoop],
      ?_, ?_⟩
    · intro r hr
      cases hr
    · intro _ h
      exact absurd rfl h
  | cons id rest ih =>
    intro db acc awp hW hmap
    obtain ⟨p, hp⟩ := hmap id (List.mem_cons_self id rest)
    simp only [deleteLoop]
    rw [hp]
    dsimp only
    cases hrow : findRow db.rows id with
    | none =>
      have hdel : sqlDelete db id = .ok { db with writeIdx := db.writeIdx + 1 } := by
        unfold sqlDelete
        rw [if_neg (by simp [hW]), hrow]
      rw [hdel]
      dsimp only
      obtain ⟨objs, recs, k1, k2, k3, k4, k5⟩ :=
        ih { db with writeIdx := db.writeIdx + 1 } (p.2 :: acc) true hW
          (fun i hi => hmap i (List.mem_cons_of_mem id hi))
      refine ⟨p.2 :: objs, recs, ?_, ?_, k3, k4, ?_⟩
      · rw [k1]
        simp
      · rw [k2]
        simp
      · intro hpres _
        have hps := hpres id (List.mem_cons_self id rest)
        rw [hrow] at hps
        simp at hps
    | some r =>
      have hdel : sqlDelete db id =
          .ok { db with
                  rows := db.rows.filter (fun q => q.rowid ≠ id)
                  writeIdx := db.writeIdx + 1
                  history := db.history ++ [⟨db.currentGroup, .del r⟩] } := by
        unfold sqlDelete
        rw [if_neg (by simp [hW]), hrow]
      rw [hdel]
      dsimp only
      obtain ⟨objs, recs, k1, k2, k3, k4, k5⟩ :=
        ih { db with
              rows := db.rows.filter (fun q => q.rowid ≠ id)
              writeIdx := db.writeIdx + 1
              history := db.history ++ [⟨db.currentGroup, .del r⟩] }
          (p.2 :: acc) true hW (fun i hi => hmap i (List.mem_cons_of_mem id hi))
      refine ⟨p.2 :: objs, ⟨db.currentGroup, .del r⟩ :: recs, ?_, ?_, ?_, ?_, ?_⟩
      · rw [k1]
        simp
      · rw [k2]
        simp
      · rw [k3]
        show (db.history ++ [⟨db.currentGroup, ChangeKind.del r⟩]) ++ recs = _
        rw [List.append_assoc]
        rfl
      · intro r2 hr2
        rcases List.mem_cons.mp hr2 with rfl | hr2'
        · rfl
        · exact k4 r2 hr2'
      · intro _ _
        exact List.cons_ne_nil _ _

/-- `deleteItems` with `useNextUndoGroup = false` on a write/select-fault-free
store and a nonempty batch that passes pre-validation: the call succeeds, the
merge step runs (`merged = true`), and the state handed back is
`decrementLastUndoGroup` of a state whose history extends the caller's by
this batch's records, every one tagged with the counter after this call's TWO
group increments (`db.currentGroup + 2`). -/
theorem deleteItems_false_merge (db : DB) (tbl idc : String) (ids : List Nat)
    (hW : db.failWrites = [])
    (hpre : deleteMissingIds db tbl idc ids = [])
    (hne : ids ≠ []) :
    ∃ (S : DB) (recs : List HistRec),
      recs ≠ [] ∧
      (∀ r ∈ recs, r.group = db.currentGroup + 2) ∧
      S.history = db.history ++ recs ∧
      (deleteItems db tbl ids false idc).2.2.merged = true ∧
      (deleteItems db tbl ids false idc).1.success = true ∧
      (deleteItems db tbl ids false idc).2.1 = decrementLastUndoGroup S := by
  have hdata : ∀ id ∈ setDedup ids, ∃ r, (getItem db tbl idc id).data = some r := by
    intro id hid
    have hnot := List.filter_eq_nil_iff.mp hpre id hid
    simp only [decide_eq_true_eq] at hnot
    rcases ho : (getItem db tbl idc id).data with _ | r
    · exact absurd ho hnot
    · exact ⟨r, rfl⟩
  have hmap : ∀ id ∈ setDedup ids,
      ∃ p, ((setDedup ids).filterMap (fun i =>
        ((getItem db tbl idc i).data).map (fun r => (i, r)))).find?
          (fun q => q.1 = id) = some p := by
    intro id hid
    rcases hdata id hid with ⟨r, hr⟩
    exact ⟨(id, r), find_in_filterMap (setDedup ids)
      (fun i => (getItem db tbl idc i).data) id r hid hr⟩
  have hpresD : ∀ id ∈ setDedup ids, (findRow db.rows id).isSome = true := by
    intro id hid
    rcases hdata id hid with ⟨r, hr⟩
    rw [getItem_data_some_found db tbl idc id r hr]
    rfl
  have hune : setDedup ids ≠ [] := setDedup_ne_nil ids hne
  simp only [deleteItems, getCurrentUndoGroup, incrementUndoGroup]
  rw [if_neg (by simp [hpre])]
  obtain ⟨objs, recs, k1, k2, k3, k4, k5⟩ :=
    deleteLoop_fold idc
      ((setDedup ids).filterMap (fun i =>
        ((getItem db tbl idc i).data).map (fun r => (i, r))))
      (setDedup ids)
      { db with currentGroup := db.currentGroup + 1 + 1 } [] false hW hmap
  rw [k1]
  dsimp only
  have hie : (setDedup ids).isEmpty = false := by
    cases hsd : setDedup ids with
    | nil => exact absurd hsd hune
    | cons a as => rfl
  have hawp : (deleteLoop idc
      ((setDedup ids).filterMap (fun i =>
        ((getItem db tbl idc i).data).map (fun r => (i, r))))
      { db with currentGroup := db.currentGroup + 1 + 1 } (setDedup ids) [] false).awp
      = true := by
    rw [k2, hie]
    rfl
  have hg : decide (db.currentGroup ≠ db.currentGroup + 1) = true :=
    decide_eq_true (by omega)
  simp only [hawp, hg, Bool.not_false, Bool.true_and, Bool.and_true, if_bool_true,
    if_bool_false, if_prop_true]
  exact ⟨_, recs, k5 hpresD hune, k4, k3, trivial, trivial, rfl⟩

/-- C2: a fault-free `createMany` call (the caller's open step) followed by a
second batch with `useNextUndoGroup = false` — for EACH of `createMany`,
`updateMany` and `deleteMany` as that second call: the second call reaches
the merge step (`merged = true`, i.e. it invokes
`mergeLastGroupIntoPrevious`), succeeds, and afterwards the history extends
the original log by records that ALL carry the group the first call opened
(`db.currentGroup + 1`) — the two calls form a single undo step. -/
theorem C2_group_folding (db : DB) (tbl : String)
    (items1 itemsC : List Obj) (itemsU : List UpdItem) (idsD : List Nat)
    (hW : db.failWrites = []) (hS : db.failSelects = [])
    (hF : ∀ q ∈ db.rows, q.rowid < db.nextRowId)
    (hWF : ∀ r ∈ db.history, r.group ≤ db.currentGroup)
    (h1 : items1 ≠ []) (hCne : itemsC ≠ [])
    (hUne : itemsU ≠ [])
    (hU : ∀ it ∈ itemsU, ∃ id, it.id = some id ∧ (findRow db.rows id).isSome = true)
    (hDne : idsD ≠ [])
    (hD : ∀ id ∈ idsD, (findRow db.rows id).isSome = true) :
    ∃ recs1 recsC recsU recsD : List HistRec,
      recs1 ≠ [] ∧ recsC ≠ [] ∧ recsU ≠ [] ∧ recsD ≠ [] ∧
      (∀ r ∈ recs1 ++ recsC ++ recsU ++ recsD, r.group = db.currentGroup + 1) ∧
      (createItems db tbl items1 true).2.1.history = db.history ++ recs1 ∧
      (createItems (createItems db tbl items1 true).2.1 tbl itemsC false).2.2.merged
        = true ∧
      (createItems (createItems db tbl items1 true).2.1 tbl itemsC false).1.success
        = true ∧
      (createItems (createItems db tbl items1 true).2.1 tbl itemsC false).2.1.history
        = db.history ++ (recs1 ++ recsC) ∧
      (updateItems (createItems db tbl items1 true).2.1 tbl itemsU false).2.2.merged
        = true ∧
      (updateItems (createItems db tbl items1 true).2.1 tbl itemsU false).1.success
        = true ∧
      (updateItems (createItems db tbl items1 true).2.1 tbl itemsU false).2.1.history
        = db.history ++ (recs1 ++ recsU) ∧
      (deleteItems (createItems db tbl items1 true).2.1 tbl idsD false "rowid").2.2.merged
        = true ∧
      (deleteItems (createItems db tbl items1 true).2.1 tbl idsD false "rowid").1.success
        = true ∧
      (deleteItems (createItems db tbl items1 true).2.1 tbl idsD false "rowid").2.1.history
        = db.history ++ (recs1 ++ recsD) := by
  have e1 := createItems_ok_true db tbl items1 hW hS hF
  set db1 : DB :=
    { db with
        rows := db.rows ++ createdRows db items1
        nextRowId := db.nextRowId + items1.length
        writeIdx := db.writeIdx + items1.length
        clockIdx := db.clockIdx + items1.length
        currentGroup := db.currentGroup + 2
        history := db.history ++ (createdRows db items1).map
          (fun r => ⟨db.currentGroup + 1, .ins r.rowid⟩) } with hdb1
  have hF1 : ∀ q ∈ db1.rows, q.rowid < db1.nextRowId := by
    intro q hq
    have hq' : q ∈ db.rows ++ createdRows db items1 := hq
    show q.rowid < db.nextRowId + items1.length
    rcases List.mem_append.mp hq' with hq'' | hq''
    · have := hF q hq''
      omega
    · exact insertedRows_rowid_ub db.columns db.clockStream db.clockIdx db.nextRowId
        items1 q hq''
  have e2 := createItems_ok_false db1 tbl itemsC hW hS hF1 hCne
  have hne1 : (createdRows db items1).map
      (fun r => (⟨db.currentGroup + 1, ChangeKind.ins r.rowid⟩ : HistRec)) ≠ [] := by
    intro hnil
    exact insertedRows_ne_nil db.columns db.clockStream db.clockIdx db.nextRowId items1 h1
      (List.map_eq_nil_iff.mp hnil)
  have hgrp1 : ∀ r ∈ (createdRows db items1).map
      (fun r => (⟨db.currentGroup + 1, ChangeKind.ins r.rowid⟩ : HistRec)),
      r.group = db.currentGroup + 1 := by
    intro r hr
    rcases List.mem_map.mp hr with ⟨q, _, rfl⟩
    rfl
  have hneC : (createdRows db1 itemsC).map
      (fun r => (⟨db1.currentGroup + 1, ChangeKind.ins r.rowid⟩ : HistRec)) ≠ [] := by
    intro hnil
    exact insertedRows_ne_nil db1.columns db1.clockStream db1.clockIdx db1.nextRowId itemsC
      hCne (List.map_eq_nil_iff.mp hnil)
  have hmergeC := decrement_two_batches
    { db1 with
        rows := db1.rows ++ createdRows db1 itemsC
        nextRowId := db1.nextRowId + itemsC.length
        writeIdx := db1.writeIdx + itemsC.length
        clockIdx := db1.clockIdx + itemsC.length
        currentGroup := db1.currentGroup + 1
        history := db1.history ++ (createdRows db1 itemsC).map
          (fun r => ⟨db1.currentGroup + 1, .ins r.rowid⟩) }
    db.history
    ((createdRows db items1).map
      (fun r => (⟨db.currentGroup + 1, ChangeKind.ins r.rowid⟩ : HistRec)))
    ((createdRows db1 itemsC).map
      (fun r => (⟨db1.currentGroup + 1, ChangeKind.ins r.rowid⟩ : HistRec)))
    db.currentGroup
    (db.currentGroup + 3)
    (by omega)
    rfl
    hWF
    hgrp1
    (by
      intro r hr
      rcases List.mem_map.mp hr with ⟨q, _, rfl⟩
      show db1.currentGroup + 1 = db.currentGroup + 3
      rw [hdb1])
    hne1
    hneC
  -- the update second call
  have hpresU : ∀ it ∈ itemsU, ∀ id, it.id = some id →
      (findRow db1.rows id).isSome = true := by
    intro it hit id hid
    rcases hU it hit with ⟨id', hid', hpr⟩
    have hii : id' = id := by
      have h2 : some id' = some id := hid'.symm.trans hid
      injection h2
    rw [hii] at hpr
    rcases Option.isSome_iff_exists.mp hpr with ⟨r, hr⟩
    have hfound : findRow db1.rows id = some r :=
      findRow_append_left db.rows (createdRows db items1) id r hr
    rw [hfound]
    rfl
  have hpreU : updateMissingIds db1 tbl itemsU = [] := by
    simp only [updateMissingIds, updateTargetIds]
    apply List.filter_eq_nil_iff.mpr
    intro oid hoid
    rcases List.mem_map.mp ((mem_setDedup oid (itemsU.map (fun i => i.id))).mp hoid) with
      ⟨it, hit, rfl⟩
    rcases hU it hit with ⟨id, hid, hpr⟩
    rcases Option.isSome_iff_exists.mp hpr with ⟨r, hr⟩
    have hfound : findRow db1.rows id = some r :=
      findRow_append_left db.rows (createdRows db items1) id r hr
    simp [hid, getItemOpt, getItem_of_found db1 tbl "rowid" id r hS hfound]
  have hsomeU : itemsU.any (fun i => i.id.isSome) = true := by
    rcases List.exists_mem_of_ne_nil itemsU hUne with ⟨it0, hit0⟩
    rcases hU it0 hit0 with ⟨id0, hid0, _⟩
    exact List.any_eq_true.mpr ⟨it0, hit0, by simp [hid0]⟩
  obtain ⟨SU, recsU', hneU', hgrpU', hShU, hmergU, hsuccU, hfinU⟩ :=
    updateItems_false_merge db1 tbl itemsU hW hS hpreU hpresU hsomeU
  have hmergeU := decrement_two_batches SU
    db.history
    ((createdRows db items1).map
      (fun r => (⟨db.currentGroup + 1, ChangeKind.ins r.rowid⟩ : HistRec)))
    recsU'
    db.currentGroup
    (db.currentGroup + 3)
    (by omega)
    hShU
    hWF
    hgrp1
    (by
      intro r hr
      have := hgrpU' r hr
      show r.group = db.currentGroup + 3
      rw [this, hdb1])
    hne1
    hneU'
  -- the delete second call
  have hpreD : deleteMissingIds db1 tbl "rowid" idsD = [] := by
    simp only [deleteMissingIds]
    apply List.filter_eq_nil_iff.mpr
    intro id hid
    have hid' : id ∈ idsD := (mem_setDedup id idsD).mp hid
    rcases Option.isSome_iff_exists.mp (hD id hid') with ⟨r, hr⟩
    have hfound : findRow db1.rows id = some r :=
      findRow_append_left db.rows (createdRows db items1) id r hr
    simp [getItem_of_found db1 tbl "rowid" id r hS hfound]
  obtain ⟨SD, recsD', hneD', hgrpD', hShD, hmergD, hsuccD, hfinD⟩ :=
    deleteItems_false_merge db1 tbl "rowid" idsD hW hpreD hDne
  have hmergeD := decrement_two_batches SD
    db.history
    ((createdRows db items1).map
      (fun r => (⟨db.currentGroup + 1, ChangeKind.ins r.rowid⟩ : HistRec)))
    recsD'
    db.currentGroup
    (db.currentGroup + 4)
    (by omega)
    hShD
    hWF
    hgrp1
    (by
      intro r hr
      have := hgrpD' r hr
      show r.group = db.currentGroup + 4
      rw [this, hdb1])
    hne1
    hneD'
  refine ⟨(createdRows db items1).map
      (fun r => (⟨db.currentGroup + 1, ChangeKind.ins r.rowid⟩ : HistRec)),
    ((createdRows db1 itemsC).map
      (fun r => (⟨db1.currentGroup + 1, ChangeKind.ins r.rowid⟩ : HistRec))).map
      (fun r => (⟨db.currentGroup + 1, r.change⟩ : HistRec)),
    recsU'.map (fun r => (⟨db.currentGroup + 1, r.change⟩ : HistRec)),
    recsD'.map (fun r => (⟨db.currentGroup + 1, r.change⟩ : HistRec)),
    hne1, ?_, ?_, ?_, ?_, ?_, ?_, ?_, ?_, ?_, ?_, ?_, ?_, ?_, ?_⟩
  · intro hnil
    exact hneC (List.map_eq_nil_iff.mp hnil)
  · intro hnil
    exact hneU' (List.map_eq_nil_iff.mp hnil)
  · intro hnil
    exact hneD' (List.map_eq_nil_iff.mp hnil)
  · intro r hr
    rcases List.mem_append.mp hr with hr | hr
    · rcases List.mem_append.mp hr with hr | hr
      · rcases List.mem_append.mp hr with hr | hr
        · rcases List.mem_map.mp hr with ⟨q, _, rfl⟩
          rfl
        · rcases List.mem_map.mp hr with ⟨q, _, rfl⟩
          rfl
      · rcases List.mem_map.mp hr with ⟨q, _, rfl⟩
        rfl
    · rcases List.mem_map.mp hr with ⟨q, _, rfl⟩
      rfl
  · rw [e1]
  · rw [e1]
    dsimp only
    rw [e2]
  · rw [e1]
    dsimp only
    rw [e2]
  · rw [e1]
    dsimp only
    rw [e2]
    show (decrementLastUndoGroup _).history = _
    rw [hmergeC]
    show db.history ++ _ ++ _ = _
    rw [List.append_assoc]
  · rw [e1]
    dsimp only
    exact hmergU
  · rw [e1]
    dsimp only
    exact hsuccU
  · rw [e1]
    dsimp only
    rw [hfinU, hmergeU]
    show db.history ++ _ ++ _ = _
    rw [List.append_assoc]
  · rw [e1]
    dsimp only
    exact hmergD
  · rw [e1]
    dsimp only
    exact hsuccD
  · rw [e1]
    dsimp only
    rw [hfinD, hmergeD]
    show db.history ++ _ ++ _ = _
    rw [List.append_assoc]

/-- Witness for C2: against a store holding row 1, a one-row create followed
by — in turn — a one-row create, a one-row update of row 1, and a one-row
delete of row 1, each with `useNextUndoGroup = false`: every second call runs
the merge step and each pairing leaves both history records in group 1, a
single undo step. -/
theorem C2_witness :
    (createItems (createItems dbWithRow "widgets" [[("name", "a")]] true).2.1 "widgets"
      [[("name", "b")]] false).2.2.merged = true ∧
    (updateItems (createItems dbWithRow "widgets" [[("name", "a")]] true).2.1 "widgets"
      [⟨some 1, [("name", "z")]⟩] false).2.2.merged = true ∧
    (deleteItems (createItems dbWithRow "widgets" [[("name", "a")]] true).2.1 "widgets"
      [1] false "rowid").2.2.merged = true ∧
    ((createItems (createItems dbWithRow "widgets" [[("name", "a")]] true).2.1 "widgets"
      [[("name", "b")]] false).2.1.history.map (fun r => r.group)) = [1, 1] ∧
    ((updateItems (createItems dbWithRow "widgets" [[("name", "a")]] true).2.1 "widgets"
      [⟨some 1, [("name", "z")]⟩] false).2.1.history.map (fun r => r.group)) = [1, 1] ∧
    ((deleteItems (createItems dbWithRow "widgets" [[("name", "a")]] true).2.1 "widgets"
      [1] false "rowid").2.1.history.map (fun r => r.group)) = [1, 1] := by
  have h := C2_group_folding dbWithRow "widgets" [[("name", "a")]] [[("name", "b")]]
    [⟨some 1, [("name", "z")]⟩] [1]
    (by decide) (by decide) (by decide) (by decide) (by decide) (by decide) (by decide)
    (by
      intro it hit
      rw [List.mem_singleton] at hit
      subst hit
      exact ⟨1, rfl, by decide⟩)
    (by decide) (by decide)
  rcases h with ⟨r1, rC, rU, rD, _, _, _, _, _, _, hmC, _, _, hmU, _, _, hmD, _, _⟩
  exact ⟨hmC, hmU, hmD, by decide, by decide, by decide⟩

/-! ### C10: the JS object graph of the per-item preparation -/

/-- A heap of JS objects: the caller's argument items are passed by
reference, and a property assignment mutates the referenced cell. -/
abbrev Heap := List Obj

/-- Dereference. -/
def heapGet (h : Heap) (ref : Nat) : Obj := h.getD ref []

/-- Mutate the referenced cell. -/
def heapSet (h : Heap) (ref : Nat) (o : Obj) : Heap := h.set ref o

/-- Allocate a fresh object, returning its reference. -/
def heapAlloc (h : Heap) (o : Obj) : Heap × Nat := (h ++ [o], h.length)

/-- Per-item preparation of `createItems` (lines 217-229) with the object
graph explicit: `const item = { ...oldItem }` allocates a fresh shallow copy,
`const { id, ...rest } = item` allocates another fresh object when an `id`
key exists, and the `created_at`/`updated_at` property writes mutate only the
prepared cell. -/
def createPrepHeap (cols : List String) (createdAt : Val) (h : Heap) (oldItemRef : Nat) :
    Heap × Nat :=
  let a1 := heapAlloc h (heapGet h oldItemRef)
  let ai :=
    if (heapGet a1.1 a1.2).any (fun p => p.1 = "id") then
      heapAlloc a1.1 ((heapGet a1.1 a1.2).filter (fun p => p.1 ≠ "id"))
    else a1
  let h2 :=
    if "created_at" ∈ cols then
      heapSet ai.1 ai.2 (setField (heapGet ai.1 ai.2) "created_at" createdAt)
    else ai.1
  let h3 :=
    if "updated_at" ∈ cols then
      heapSet h2 ai.2 (setField (heapGet h2 ai.2) "updated_at" createdAt)
    else h2
  (h3, ai.2)

/-- Per-item preparation of `updateItems` (lines 346-353) with the object
graph explicit: shallow copy, then the `updated_at` write mutates the copy. -/
def updatePrepHeap (cols : List String) (updatedAt : Val) (h : Heap) (oldItemRef : Nat) :
    Heap × Nat :=
  let a1 := heapAlloc h (heapGet h oldItemRef)
  let h2 :=
    if "updated_at" ∈ cols then
      heapSet a1.1 a1.2 (setField (heapGet a1.1 a1.2) "updated_at" updatedAt)
    else a1.1
  (h2, a1.2)

theorem heapGet_append_self (A : Heap) (o : Obj) : heapGet (A ++ [o]) A.length = o := by
  unfold heapGet
  induction A with
  | nil => rfl
  | cons a as ih => simp only [List.cons_append, List.length_cons]; exact ih

theorem heapSet_last (A : Heap) (x v : Obj) : heapSet (A ++ [x]) A.length v = A ++ [v] := by
  unfold heapSet
  induction A with
  | nil => rfl
  | cons a as ih =>
    simp only [List.cons_append, List.length_cons]
    exact congrArg (List.cons a) ih

theorem heapGet_pair (A : Heap) (a b : Obj) : heapGet (A ++ [a, b]) (A.length + 1) = b := by
  unfold heapGet
  induction A with
  | nil => rfl
  | cons x xs ih => simp only [List.cons_append, List.length_cons]; exact ih

theorem heapSet_pair (A : Heap) (a b v : Obj) :
    heapSet (A ++ [a, b]) (A.length + 1) v = A ++ [a, v] := by
  unfold heapSet
  induction A with
  | nil => rfl
  | cons x xs ih =>
    simp only [List.cons_append, List.length_cons]
    exact congrArg (List.cons x) ih

theorem heapGet_append_lt (A : Heap) (rest : Heap) (r : Nat) (hr : r < A.length) :
    heapGet (A ++ rest) r = heapGet A r := by
  unfold heapGet
  induction A generalizing r with
  | nil => cases hr
  | cons a as ih =>
    cases r with
    | zero => rfl
    | succ n =>
      simp only [List.cons_append]
      show (as ++ rest).getD n [] = as.getD n []
      exact ih n (by simpa using hr)

/-- Closed form of `createPrepHeap`: only fresh cells are written; the
prepared object is exactly `prepareCreateItem` of the caller's object. -/
theorem createPrepHeap_eq (cols : List String) (ts : Val) (h : Heap) (ref : Nat) :
    createPrepHeap cols ts h ref =
      if (heapGet h ref).any (fun p => p.1 = "id") then
        (h ++ [heapGet h ref] ++ [prepareCreateItem cols ts (heapGet h ref)], h.length + 1)
      else
        (h ++ [prepareCreateItem cols ts (heapGet h ref)], h.length) := by
  simp only [createPrepHeap, heapAlloc, prepareCreateItem, heapGet_append_self]
  by_cases hid : (heapGet h ref).any (fun p => p.1 = "id") = true
  · simp only [hid, if_true]
    have hlen : (h ++ [heapGet h ref]).length = h.length + 1 := by simp
    by_cases hc : "created_at" ∈ cols
    · by_cases hu : "updated_at" ∈ cols
      · simp [hc, hu, heapSet_last, heapGet_append_self, heapSet_pair, heapGet_pair, hlen]
      · simp [hc, hu, heapSet_last, heapGet_append_self, heapSet_pair, heapGet_pair, hlen]
    · by_cases hu : "updated_at" ∈ cols
      · simp [hc, hu, heapSet_last, heapGet_append_self, heapSet_pair, heapGet_pair, hlen]
      · simp [hc, hu, heapSet_last, heapGet_append_self, heapSet_pair, heapGet_pair, hlen]
  · simp only [hid, if_false, Bool.false_eq_true]
    by_cases hc : "created_at" ∈ cols
    · by_cases hu : "updated_at" ∈ cols
      · simp [hid, hc, hu, heapSet_last, heapGet_append_self]
      · simp [hid, hc, hu, heapSet_last, heapGet_append_self]
    · by_cases hu : "updated_at" ∈ cols
      · simp [hid, hc, hu, heapSet_last, heapGet_append_self]
      · simp [hid, hc, hu, heapSet_last, heapGet_append_self]

/-- Closed form of `updatePrepHeap`. -/
theorem updatePrepHeap_eq (cols : List String) (ts : Val) (h : Heap) (ref : Nat) :
    updatePrepHeap cols ts h ref =
      (h ++ [if "updated_at" ∈ cols then setField (heapGet h ref) "updated_at" ts
             else heapGet h ref],
       h.length) := by
  simp only [updatePrepHeap, heapAlloc, heapGet_append_self]
  by_cases hu : "updated_at" ∈ cols
  · simp [hu, heapSet_last, heapGet_append_self]
  · simp [hu]

/-- C10: the per-item preparation of `createItems` and `updateItems` never
mutates the caller's argument objects.  Each input item is shallow-copied
before the identifier is stripped or timestamps are added: every pre-existing
heap cell is unchanged by the preparation, the prepared object lives in a
fresh cell at or beyond the old heap end, and its content is exactly the
value-level preparation (`prepareCreateItem`, resp. the `updated_at`-stamped
copy that `prepareUpdateItem` computes) of the caller's object. -/
theorem C10_no_caller_mutation (cols : List String) (ts : Val) (h : Heap) (ref : Nat) :
    (∀ r, r < h.length → heapGet (createPrepHeap cols ts h ref).1 r = heapGet h r) ∧
    h.length ≤ (createPrepHeap cols ts h ref).2 ∧
    heapGet (createPrepHeap cols ts h ref).1 (createPrepHeap cols ts h ref).2
      = prepareCreateItem cols ts (heapGet h ref) ∧
    (∀ r, r < h.length → heapGet (updatePrepHeap cols ts h ref).1 r = heapGet h r) ∧
    h.length ≤ (updatePrepHeap cols ts h ref).2 ∧
    (∀ it : UpdItem, (prepareUpdateItem cols ts it).fields =
      (if "updated_at" ∈ cols then setField it.fields "updated_at" ts else it.fields)) := by
  rw [createPrepHeap_eq, updatePrepHeap_eq]
  by_cases hid : (heapGet h ref).any (fun p => p.1 = "id") = true
  · rw [if_pos hid]
    refine ⟨?_, by simp, ?_, ?_, le_refl _, ?_⟩
    · intro r hr
      rw [List.append_assoc, heapGet_append_lt h _ r hr]
    · have hlen : (h ++ [heapGet h ref]).length = h.length + 1 := by simp
      rw [← hlen]
      exact heapGet_append_self _ _
    · intro r hr
      rw [heapGet_append_lt h _ r hr]
    · intro it
      unfold prepareUpdateItem
      by_cases hu : "updated_at" ∈ cols
      · rw [if_pos hu, if_pos hu]
      · rw [if_neg hu, if_neg hu]
  · rw [if_neg hid]
    refine ⟨?_, le_refl _, heapGet_append_self _ _, ?_, le_refl _, ?_⟩
    · intro r hr
      rw [heapGet_append_lt h _ r hr]
    · intro r hr
      rw [heapGet_append_lt h _ r hr]
    · intro it
      unfold prepareUpdateItem
      by_cases hu : "updated_at" ∈ cols
      · rw [if_pos hu, if_pos hu]
      · rw [if_neg hu, if_neg hu]

/-- Witness for C10: a caller object holding an `id` key is untouched by the
create preparation, and the prepared cell has the id stripped and timestamps
added. -/
theorem C10_witness :
    heapGet (createPrepHeap ["name", "created_at", "updated_at"] "9"
      [[("id", "5"), ("name", "x")]] 0).1 0 = [("id", "5"), ("name", "x")] ∧
    heapGet (createPrepHeap ["name", "created_at", "updated_at"] "9"
        [[("id", "5"), ("name", "x")]] 0).1
      (createPrepHeap ["name", "created_at", "updated_at"] "9"
        [[("id", "5"), ("name", "x")]] 0).2
      = [("name", "x"), ("created_at", "9"), ("updated_at", "9")] := by
  have hfr := C10_no_caller_mutation ["name", "created_at", "updated_at"] "9"
    [[("id", "5"), ("name", "x")]] 0
  refine ⟨?_, ?_⟩
  · have := hfr.1 0 (by decide)
    rw [this]
    decide
  · rw [hfr.2.2.1]
    decide

end OpenMarch
